import Mathlib

/-!
Verification of the virtual file-system state machine of the browser
desktop-shell application (source: `src/App.tsx`, `src/types.ts`).

The embedding translates the React component's state and event handlers
into pure Lean functions.  The mutable `useState` cells (`files`,
`undoStack`, `redoStack`, `clipboard`, `selectedFileIds`) become fields of
an explicit `AppState` record; `setFiles`/`setUndoStack`/... become record
updates; `Date.now()` and `uuidv4()` are external inputs and are passed in
as explicit parameters (`now : Nat`, id-generator functions); the
notification toast becomes a list of emitted messages.  JavaScript arrays
are `List`s with push/pop at the head for the two history stacks (the
source pushes and pops at the tail; the orientation is irrelevant to stack
semantics and head-oriented lists make the structure explicit).
JavaScript string falsiness (`null`, `undefined`, `""`) is modelled
explicitly wherever the source relies on it.
-/

set_option maxHeartbeats 1000000

namespace FSApp

/-- 2D coordinate used for free desktop positioning (the `position` field of
`FileSystemItem` in `src/types.ts`). -/
structure Pos where
  x : Int
  y : Int
deriving DecidableEq

/-- `trashData` metadata stored while an item sits in the trash
(`src/types.ts`). -/
structure TrashData where
  originalParentId : Option String
  dateTrashed : Nat
deriving DecidableEq

/-- `FileType` enum from `src/types.ts`. -/
inductive FileType where
  | FOLDER
  | IMAGE
  | TEXT
  | VIDEO
  | AUDIO
  | PDF
  | CODE
  | ARCHIVE
  | SHEET
  | UNKNOWN
deriving DecidableEq

/-- `UserRole` enum from `src/types.ts`. -/
inductive UserRole where
  | ADMIN
  | USER
  | JUNIOR
deriving DecidableEq

/-- `User` record from `src/types.ts` (the `labRole` union is kept as a
plain string; optional fields become `Option`). -/
structure User where
  id : String
  username : String
  password : Option String
  fullName : String
  role : UserRole
  labRole : String
  avatar : Option String
  bio : Option String
deriving DecidableEq

/-- `FileSystemItem` record from `src/types.ts`.  `parentId` is
`Option String`: `none` models JavaScript `null`/`undefined`; the string
`"trash"` (`TRASH_ID`) is the trash sentinel. -/
structure FileSystemItem where
  id : String
  parentId : Option String
  name : String
  type : FileType
  size : Option Nat
  content : Option String
  dateModified : Nat
  dateCreated : Option Nat
  colorTag : Option String
  tags : List String
  order : Int
  position : Option Pos
  visibleTo : List UserRole
  ownerId : Option String
  trashData : Option TrashData
deriving DecidableEq

/-- One entry of the `MOVE` history payload (`movedItemsPayload` in
`handleMoveFile`). -/
structure MoveRec where
  id : String
  oldParentId : Option String
  oldOrder : Int
  oldPosition : Option Pos
  newParentId : String
  newOrder : Int
  newPosition : Option Pos
deriving DecidableEq

/-- The `payload` of a `HistoryAction`, keyed by the `ActionType` tag
(`src/types.ts` uses a loosely typed `any` payload; each constructor here
carries exactly the fields the corresponding `commitAction` call stores).
The `RESTORE` payload stores only the ids, exactly as
`handleRestoreFile` commits it (the undo branch of `performUndo` reads a
`payload.originalParentId` field that is never stored; the missing field
is JavaScript `undefined` and is modelled as `none` at the read site). -/
inductive HistoryPayload where
  | RENAME (id oldName newName : String)
  | MOVE (items : List MoveRec)
  | TRASH (ids : List String)
  | RESTORE (ids : List String)
  | REPOSITION (id : String) (oldPosition : Option Pos) (newPosition : Pos)
  | SWAP (sourceId targetId : String)
      (sourceOldOrder targetOldOrder sourceNewOrder targetNewOrder : Int)
  | DELETE (files : List FileSystemItem)
  | CREATE (id : String) (item : FileSystemItem)
  | PASTE (newItems : List FileSystemItem)
deriving DecidableEq

/-- `HistoryAction` from `src/types.ts`: tag+payload, description and
timestamp. -/
structure HistoryAction where
  payload : HistoryPayload
  description : String
  timestamp : Nat
deriving DecidableEq

/-- The clipboard cell: `{ ids, op: 'COPY' }` (`op` is the constant
`'COPY'` and is omitted). -/
structure ClipboardState where
  ids : List String
deriving DecidableEq

/-- The mutable state of the `App` component that the file-system core
reads and writes: the file collection, the two history stacks, the
clipboard, the current multi-selection and the emitted notification
messages (most recent first). -/
structure AppState where
  files : List FileSystemItem
  undoStack : List HistoryAction
  redoStack : List HistoryAction
  clipboard : Option ClipboardState
  selectedFileIds : List String
  notifications : List String
deriving DecidableEq

/-- `const TRASH_ID = 'trash'`. -/
def TRASH_ID : String := "trash"

/-- `files.find(f => f.id === q)`. -/
def findById (files : List FileSystemItem) (q : String) : Option FileSystemItem :=
  files.find? (fun f => f.id == q)

/-- `f.trashData?.originalParentId || 'root'` — JavaScript `||` falls back
to `'root'` on `undefined`/`null` and on the empty string. -/
def jsOrRoot (td : Option TrashData) : String :=
  match td with
  | none => "root"
  | some t =>
    match t.originalParentId with
    | none => "root"
    | some p => if p == "" then "root" else p

/-- `items.length > 0 ? Math.max(...items.map(f => f.order)) : 0`. -/
def maxOrderOf (items : List FileSystemItem) : Int :=
  match items.map (fun f => f.order) with
  | [] => 0
  | o :: os => os.foldl max o

/-- Update the first list element whose id matches, setting its `order`.
This renders the source pattern
`const i = arr.findIndex(f => f.id === x); if (i > -1) arr[i] = {...arr[i], order: o}`
(used by the `SWAP` branches of `performUndo`/`performRedo`): the element
at the first matching index is replaced, all others are untouched. -/
def updateOrderFirst (x : String) (o : Int) : List FileSystemItem → List FileSystemItem
  | [] => []
  | f :: fs => if f.id == x then { f with order := o } :: fs else f :: updateOrderFirst x o fs

/-- Character-list recursion behind `strStartsWith`. -/
def strStartsWithAux : List Char → List Char → Bool
  | [], _ => true
  | _ :: _, [] => false
  | p :: ps, c :: cs => p == c && strStartsWithAux ps cs

/-- `s.startsWith(pre)`, computed on the character lists (the library
`String.startsWith` is by byte position and does not reduce in the
kernel). -/
def strStartsWith (s pre : String) : Bool :=
  strStartsWithAux pre.toList s.toList

/-- A JavaScript `trim` whitespace character (the common ASCII cases). -/
def isSpaceChar (c : Char) : Bool :=
  c == ' ' || c == '\t' || c == '\n' || c == '\r'

/-- `s.trim()`, computed on the character list. -/
def jsTrim (s : String) : String :=
  String.mk (((s.toList.dropWhile isSpaceChar).reverse.dropWhile isSpaceChar).reverse)

/-- `currentUser!.id` as used when stamping `ownerId` on created items
(the source asserts a logged-in user with `!`; the embedding totalizes
with `none`). -/
def currentUserId (u : Option User) : Option String :=
  match u with
  | some usr => some usr.id
  | none => none

/-- `isFileVisible` (`src/App.tsx` lines 56-60): `false` when nobody is
logged in; `true` unconditionally for `ADMIN`; otherwise membership of the
user's role in `visibleTo`. -/
def isFileVisible (currentUser : Option User) (item : FileSystemItem) : Bool :=
  match currentUser with
  | none => false
  | some u => if u.role == UserRole.ADMIN then true else item.visibleTo.contains u.role

/-- `hasPermission`: if you can see it, you have full permissions. -/
def hasPermission (currentUser : Option User) (item : FileSystemItem) : Bool :=
  isFileVisible currentUser item

/-- `showNotification(msg)`: record the toast message. -/
def showNotification (msg : String) (s : AppState) : AppState :=
  { s with notifications := msg :: s.notifications }

/-- `showPermissionError()`. -/
def showPermissionError (s : AppState) : AppState :=
  showNotification "Permission Denied: Access Restricted" s

/-- `commitAction(action)` (`src/App.tsx` lines 131-134): push onto the
undo stack and clear the redo stack. -/
def commitAction (a : HistoryAction) (s : AppState) : AppState :=
  { s with undoStack := a :: s.undoStack, redoStack := [] }

/-- `name.lastIndexOf('.')` over the character list, returning `none` for
`-1`; the second argument is the index of the head character. -/
def lastDotAux : List Char → Nat → Option Nat
  | [], _ => none
  | c :: cs, i =>
    match lastDotAux cs (i + 1) with
    | some j => some j
    | none => if c = '.' then some i else none

/-- The candidate name built in the collision loop of
`copyItemRecursively` (`src/App.tsx` lines 323-333):
`dotIndex = name.lastIndexOf('.')`; only when `dotIndex > 0` is the name
split into stem and extension; the counter is appended for `counter > 1`. -/
def mkCopyCandidate (name : String) (counter : Nat) : String :=
  let chars := name.toList
  let suffix := " copy" ++ (if counter > 1 then " " ++ toString counter else "")
  match lastDotAux chars 0 with
  | some j =>
    if j > 0 then
      String.mk (chars.take j) ++ suffix ++ String.mk (chars.drop j)
    else name ++ suffix
  | none => name ++ suffix

/-- The `while (siblings.some(f => f.name === candidateName))` loop of
`copyItemRecursively`, with an explicit fuel parameter (the source loop
terminates because successive candidates are pairwise distinct while the
sibling name list is finite; `usedNames.length + 2` steps always suffice
for the states arising in the application). -/
def pasteCollisionLoop (usedNames : List String) (name : String) :
    Nat → Nat → String → String
  | 0, _, cand => cand
  | fuel + 1, counter, cand =>
    if usedNames.contains cand then
      pasteCollisionLoop usedNames name fuel (counter + 1) (mkCopyCandidate name counter)
    else cand

/-- The full paste name-collision resolution: start from the original
name with `counter = 1`. -/
def pasteCollisionName (usedNames : List String) (name : String) : String :=
  pasteCollisionLoop usedNames name (usedNames.length + 2) 1 name

/-- The `while (siblings.some(f => f.name === finalName))` loop of
`handleNewFolderAction` (`src/App.tsx` lines 987-996): probes
`base`, `base 2`, `base 3`, ... (counter starts at 2), with fuel as
above. -/
def newFolderNameLoop (usedNames : List String) (base : String) :
    Nat → Nat → String → String
  | 0, _, cur => cur
  | fuel + 1, counter, cur =>
    if usedNames.contains cur then
      newFolderNameLoop usedNames base fuel (counter + 1)
        (base ++ " " ++ toString counter)
    else cur

/-- The unique name computed for a new folder, base name
`'Untitled Folder'`. -/
def newFolderName (usedNames : List String) : String :=
  newFolderNameLoop usedNames "Untitled Folder" (usedNames.length + 2) 2 "Untitled Folder"

/-- `copyItemRecursively(itemId, newParentId, isRootOfCopy)`
(`src/App.tsx` lines 310-367).  `gen k` stands for the `k`-th call to
`uuidv4()`; the returned `Nat` is the next unused generator index.  `fuel`
bounds the recursion depth (the source recurses along the child relation;
in the acyclic states of the application `files.length + 1` levels always
suffice).  The `children.forEach` accumulation is rendered as a fold
starting from the singleton clone list. -/
def copyItemRec (files : List FileSystemItem) (now : Nat) (gen : Nat → String) :
    Nat → Nat → String → String → Bool → (List FileSystemItem × Nat)
  | 0, k, _, _, _ => ([], k)
  | fuel + 1, k, itemId, newParentId, isRootOfCopy =>
    match findById files itemId with
    | none => ([], k)
    | some item =>
      let newId := gen k
      let newName :=
        if isRootOfCopy then
          pasteCollisionName
            ((files.filter (fun f => f.parentId == some newParentId)).map (fun f => f.name))
            item.name
        else item.name
      let newPosition :=
        if newParentId == "root" then
          item.position.map (fun p => { x := p.x + 20, y := p.y + 20 })
        else none
      let newItem : FileSystemItem :=
        { item with
          id := newId
          parentId := some newParentId
          name := newName
          dateModified := now
          dateCreated := some now
          position := newPosition
          trashData := none }
      if item.type == FileType.FOLDER then
        let children := files.filter (fun f => f.parentId == some itemId)
        children.foldl
          (fun (acc : List FileSystemItem × Nat) c =>
            let r1 := copyItemRec files now gen fuel acc.2 c.id newId false
            (acc.1 ++ r1.1, r1.2))
          ([newItem], k + 1)
      else ([newItem], k + 1)

/-- `clipboard.ids.forEach(id => { ... copyItemRecursively(id, target, true) ... })`
inside `handlePaste`: fold the clone results in clipboard order,
threading the id-generator index. -/
def pasteNewItems (files : List FileSystemItem) (now : Nat) (gen : Nat → String)
    (ids : List String) (target : String) : List FileSystemItem :=
  (ids.foldl
    (fun (acc : List FileSystemItem × Nat) i =>
      let r := copyItemRec files now gen (files.length + 1) acc.2 i target true
      (acc.1 ++ r.1, r.2))
    ([], 0)).1

/-- The upward walk of `handleMoveFile` (`src/App.tsx` lines 683-688):
`let current = files.find(f => f.id === target); while (current) { if
(current.id === sourceId) return; if (!current.parentId) break; current =
files.find(...) }`.  `!current.parentId` is JavaScript-falsy for `null`,
`undefined` and `""`.  Fuel bounds the walk (the source loop terminates on
every acyclic parent chain within `files.length` steps). -/
def walkHits (files : List FileSystemItem) (sourceId : String) :
    Option FileSystemItem → Nat → Bool
  | none, _ => false
  | some _, 0 => false
  | some cur, fuel + 1 =>
    if cur.id == sourceId then true
    else
      match cur.parentId with
      | none => false
      | some p => if p == "" then false else walkHits files sourceId (findById files p) fuel

/-- The move-cycle guard: walking upward from the target, does the walk
encounter the source id? -/
def moveCycleGuard (files : List FileSystemItem) (sourceId targetId : String) : Bool :=
  walkHits files sourceId (findById files targetId) (files.length + 1)

/-- The `prev.map(...)` body of `handleMoveFile` with its mutable
`maxOrder` counter and `movedItemsPayload` accumulator, rendered as a
single left-to-right pass.  Returns the new file list, the payload records
in file order and the final counter. -/
def moveFold (target : String) (newPos : Option Pos) (now : Nat)
    (idsToMove : List String) :
    List FileSystemItem → Int → (List FileSystemItem × List MoveRec × Int)
  | [], m => ([], [], m)
  | f :: fs, m =>
    if idsToMove.contains f.id then
      if f.parentId == some target && newPos.isNone then
        let r := moveFold target newPos now idsToMove fs m
        (f :: r.1, r.2.1, r.2.2)
      else
        let m1 := m + 1
        let rec1 : MoveRec :=
          { id := f.id
            oldParentId := f.parentId
            oldOrder := f.order
            oldPosition := f.position
            newParentId := target
            newOrder := m1
            newPosition := newPos }
        let r := moveFold target newPos now idsToMove fs m1
        let f1 : FileSystemItem :=
          { f with parentId := some target, dateModified := now, order := m1, position := newPos }
        (f1 :: r.1, rec1 :: r.2.1, r.2.2)
    else
      let r := moveFold target newPos now idsToMove fs m
      (f :: r.1, r.2.1, r.2.2)

/-- `handleMoveToTrash(itemIds)` (`src/App.tsx` lines 809-843): abort with
a permission error if any targeted visible item fails the gate; otherwise
reparent every targeted item to the trash sentinel, clear its position,
stamp `trashData`, clear the selection, commit a `TRASH` action (always,
even when no item matched) and show a toast. -/
def handleMoveToTrash (u : Option User) (now : Nat) (s : AppState)
    (itemIds : List String) : AppState :=
  let itemsToTrash := s.files.filter (fun f => itemIds.contains f.id)
  if itemsToTrash.any (fun f => !(hasPermission u f)) then showPermissionError s
  else
    let s1 : AppState :=
      { s with
        files := s.files.map (fun f =>
          if itemIds.contains f.id then
            { f with
              parentId := some TRASH_ID
              position := none
              trashData := some { originalParentId := f.parentId, dateTrashed := now } }
          else f)
        selectedFileIds := [] }
    showNotification (toString itemIds.length ++ " item(s) moved to Trash")
      (commitAction
        { payload := HistoryPayload.TRASH itemIds
          description := "Move " ++ toString itemIds.length ++ " item(s) to Trash"
          timestamp := now } s1)

/-- `handleRestoreFile(itemIds)` (`src/App.tsx` lines 845-867): reparent
each targeted item to its stored `originalParentId` (falling back to
`'root'` when that is lost), clear `trashData`, clear the selection,
commit a `RESTORE` action (always) and show a toast.  There is no
permission check in the source. -/
def handleRestoreFile (now : Nat) (s : AppState) (itemIds : List String) : AppState :=
  let s1 : AppState :=
    { s with
      files := s.files.map (fun f =>
        if itemIds.contains f.id then
          { f with parentId := some (jsOrRoot f.trashData), trashData := none }
        else f)
      selectedFileIds := [] }
  showNotification (toString itemIds.length ++ " item(s) restored")
    (commitAction
      { payload := HistoryPayload.RESTORE itemIds
        description := "Restore " ++ toString itemIds.length ++ " item(s)"
        timestamp := now } s1)

/-- `handlePermanentDelete(itemIds)` (`src/App.tsx` lines 869-883): commit
a `DELETE` action holding full snapshots of the removed items (always,
even when no item matched), then drop them from the collection. -/
def handlePermanentDelete (now : Nat) (s : AppState) (itemIds : List String) : AppState :=
  let filesToDelete := s.files.filter (fun f => itemIds.contains f.id)
  let s1 :=
    commitAction
      { payload := HistoryPayload.DELETE filesToDelete
        description := "Permanently delete " ++ toString filesToDelete.length ++ " item(s)"
        timestamp := now } s
  showNotification "Files permanently deleted"
    { s1 with
      files := s1.files.filter (fun f => !(itemIds.contains f.id))
      selectedFileIds := [] }

/-- `handleRenameConfirm(id, newName)` (`src/App.tsx` lines 546-571):
no-op when the item is missing or in trash; permission toast on gate
failure; rename, bump `dateModified` and commit only when the trimmed new
name is non-empty and different. -/
def handleRenameConfirm (u : Option User) (now : Nat) (s : AppState)
    (id newName : String) : AppState :=
  match findById s.files id with
  | none => s
  | some file =>
    if file.parentId == some TRASH_ID then s
    else if !(hasPermission u file) then showPermissionError s
    else
      let clean := jsTrim newName
      if !(clean == "") && !(file.name == clean) then
        commitAction
          { payload := HistoryPayload.RENAME id file.name clean
            description := "Rename"
            timestamp := now }
          { s with files := s.files.map (fun f =>
              if f.id == id then { f with name := clean, dateModified := now } else f) }
      else s

/-- `handleMoveFile(sourceId, targetFolderId, newPosition)`
(`src/App.tsx` lines 661-731).  The target folder id is what the caller
resolved from the drop site.  Permission failure toasts; dropping on the
trash id delegates to `handleMoveToTrash`; the upward walk rejects cycles
silently; otherwise every co-selected item (the drag source alone if it is
not part of the selection) that is not already in the target (or that
receives an explicit position) is reparented with a fresh `maxOrder + 1`
order, and a `MOVE` action is committed only when the payload is
non-empty. -/
def handleMoveFile (u : Option User) (now : Nat) (s : AppState)
    (sourceId targetFolderId : String) (newPos : Option Pos) : AppState :=
  if sourceId == targetFolderId then s
  else
    let sourcePermFail :=
      match findById s.files sourceId with
      | some f => !(hasPermission u f)
      | none => false
    if sourcePermFail then showPermissionError s
    else if targetFolderId == TRASH_ID then handleMoveToTrash u now s [sourceId]
    else
      let targetPermFail :=
        if !(targetFolderId == "root") then
          match findById s.files targetFolderId with
          | some f => !(hasPermission u f)
          | none => false
        else false
      if targetPermFail then showPermissionError s
      else if moveCycleGuard s.files sourceId targetFolderId then s
      else
        let idsToMove :=
          if s.selectedFileIds.contains sourceId then
            (s.selectedFileIds ++ [sourceId]).eraseDups
          else [sourceId]
        let targetItems := s.files.filter (fun f => f.parentId == some targetFolderId)
        let m0 := maxOrderOf targetItems
        let r := moveFold targetFolderId newPos now idsToMove s.files m0
        let recs := r.2.1
        if recs.isEmpty then { s with files := r.1 }
        else
          commitAction
            { payload := HistoryPayload.MOVE recs
              description := "Move " ++ toString recs.length ++ " item" ++
                (if recs.length > 1 then "s" else "")
              timestamp := now }
            { s with files := r.1 }

/-- `handleReposition(id, newPosition)` (`src/App.tsx` lines 733-748):
silently no-op on a missing item or a failed gate (no toast); otherwise
set the explicit position and commit a `REPOSITION` action. -/
def handleReposition (u : Option User) (now : Nat) (s : AppState)
    (id : String) (pos : Pos) : AppState :=
  match findById s.files id with
  | none => s
  | some file =>
    if !(hasPermission u file) then s
    else
      commitAction
        { payload := HistoryPayload.REPOSITION id file.position pos
          description := "Reposition"
          timestamp := now }
        { s with files := s.files.map (fun f =>
            if f.id == id then { f with position := some pos } else f) }

/-- `handleSwapFile(sourceId, targetId)` (`src/App.tsx` lines 771-805):
no-op when either endpoint is missing; permission toast on a failed gate;
otherwise commit a `SWAP` action and exchange the two `order` values. -/
def handleSwapFile (u : Option User) (now : Nat) (s : AppState)
    (sourceId targetId : String) : AppState :=
  match findById s.files sourceId, findById s.files targetId with
  | some sourceFile, some targetFile =>
    if !(hasPermission u sourceFile) || !(hasPermission u targetFile) then
      showPermissionError s
    else
      let sourceOrder := sourceFile.order
      let targetOrder := targetFile.order
      commitAction
        { payload := HistoryPayload.SWAP sourceId targetId
            sourceOrder targetOrder targetOrder sourceOrder
          description := "Reorder"
          timestamp := now }
        { s with files := s.files.map (fun f =>
            if f.id == sourceId then { f with order := targetOrder }
            else if f.id == targetId then { f with order := sourceOrder }
            else f) }
  | _, _ => s

/-- `handleNewFolderAction()` (`src/App.tsx` lines 959-1015).  The target
parent id is what the active finder window resolved (`'root'` when none).
Rejects trash and tag views with a toast; permission toast on a failed
gate; otherwise creates a folder with a de-duplicated
`'Untitled Folder'`-scheme name, fixed order 1000, fixed position on the
desktop, default visibility, and commits a `CREATE` action.  `newId` is
the `uuidv4()` result. -/
def handleNewFolderAction (u : Option User) (now : Nat) (s : AppState)
    (targetParentId newId : String) : AppState :=
  if targetParentId == TRASH_ID then showNotification "Cannot create folders in Trash" s
  else if strStartsWith targetParentId "tag:" then
    showNotification "Cannot create folders in Tag view" s
  else
    let permFail :=
      if !(targetParentId == "root") then
        match findById s.files targetParentId with
        | some f => !(hasPermission u f)
        | none => false
      else false
    if permFail then showPermissionError s
    else
      let siblings := s.files.filter (fun f => f.parentId == some targetParentId)
      let finalName := newFolderName (siblings.map (fun f => f.name))
      let newFolder : FileSystemItem :=
        { id := newId
          parentId := some targetParentId
          name := finalName
          type := FileType.FOLDER
          size := none
          content := none
          dateModified := now
          dateCreated := some now
          colorTag := none
          tags := []
          order := 1000
          position := if targetParentId == "root" then some { x := 200, y := 200 } else none
          visibleTo := [UserRole.USER, UserRole.JUNIOR]
          ownerId := currentUserId u
          trashData := none }
      showNotification "Created folder"
        (commitAction
          { payload := HistoryPayload.CREATE newId newFolder
            description := "New Folder"
            timestamp := now }
          { s with files := s.files ++ [newFolder] })

/-- `handlePaste()` (`src/App.tsx` lines 369-424).  The target folder id
is what the active finder window resolved (`'root'` when none).  Silent
no-op on an empty clipboard; toast and no change for trash and tag-view
targets and for a failed permission gate; otherwise clone every clipboard
subtree with fresh ids, append the clones and commit a `PASTE` action
only when at least one clone was produced. -/
def handlePaste (u : Option User) (now : Nat) (gen : Nat → String) (s : AppState)
    (targetFolderId : String) : AppState :=
  match s.clipboard with
  | none => s
  | some cb =>
    if cb.ids.isEmpty then s
    else if targetFolderId == TRASH_ID then showNotification "Cannot paste into Trash" s
    else if strStartsWith targetFolderId "tag:" then
      showNotification "Cannot paste into Tags view" s
    else
      let permFail :=
        if !(targetFolderId == "root") then
          match findById s.files targetFolderId with
          | some f => !(hasPermission u f)
          | none => false
        else false
      if permFail then showPermissionError s
      else
        let allNewItems := pasteNewItems s.files now gen cb.ids targetFolderId
        if allNewItems.isEmpty then s
        else
          showNotification ("Pasted " ++ toString cb.ids.length ++ " item(s)")
            (commitAction
              { payload := HistoryPayload.PASTE allNewItems
                description := "Paste " ++ toString cb.ids.length ++ " item(s)"
                timestamp := now }
              { s with files := s.files ++ allNewItems })

/-- One uploaded file descriptor handed to `handleUpload` (name, byte
size and the `FileType` the source derives from the MIME type). -/
structure UploadFile where
  name : String
  size : Nat
  ftype : FileType
deriving DecidableEq

/-- `handleUpload(fileList, targetFolderId)` (`src/App.tsx` lines
600-659), collapsed to its completed effect (the source drives the same
mutation from a progress timer): reject a trash target with a toast;
permission toast when the target folder exists and fails the gate (a
tag-view target matches no folder and passes through); otherwise append
one new item per upload with orders `maxOrder + 1 + idx` and commit one
`CREATE` action per item. -/
def handleUpload (u : Option User) (now : Nat) (gen : Nat → String) (s : AppState)
    (uploads : List UploadFile) (targetFolderId : String) : AppState :=
  if targetFolderId == TRASH_ID then
    showNotification "Cannot upload directly to Trash" s
  else
    let permFail :=
      if !(targetFolderId == "root") then
        match findById s.files targetFolderId with
        | some f => !(hasPermission u f)
        | none => false
      else false
    if permFail then showPermissionError s
    else
      let folderItems := s.files.filter (fun f => f.parentId == some targetFolderId)
      let maxOrd := maxOrderOf folderItems
      let newFiles : List FileSystemItem :=
        (List.range uploads.length).zip uploads |>.map (fun p =>
          { id := gen p.1
            parentId := some targetFolderId
            name := p.2.name
            type := p.2.ftype
            size := some p.2.size
            content := none
            dateModified := now
            dateCreated := some now
            colorTag := none
            tags := []
            order := maxOrd + 1 + Int.ofNat p.1
            position := none
            visibleTo := [UserRole.USER, UserRole.JUNIOR]
            ownerId := currentUserId u
            trashData := none })
      newFiles.foldl
        (fun st f =>
          commitAction
            { payload := HistoryPayload.CREATE f.id f
              description := "Upload"
              timestamp := now } st)
        { s with files := s.files ++ newFiles }

/-- `updateVisibility(itemId, updatedVisibleTo)` (`src/App.tsx` lines
67-73): admins replace the `visibleTo` set of the item; everyone else
gets a permission toast.  No history commit. -/
def updateVisibility (u : Option User) (s : AppState) (itemId : String)
    (updatedVisibleTo : List UserRole) : AppState :=
  if !(match u with | some usr => usr.role == UserRole.ADMIN | none => false) then
    showPermissionError s
  else
    { s with files := s.files.map (fun f =>
        if f.id == itemId then { f with visibleTo := updatedVisibleTo } else f) }

/-- `updateTags(itemId, tags)` (`src/App.tsx` lines 75-77): replace the
tag set of the item.  No permission check, no history commit. -/
def updateTags (s : AppState) (itemId : String) (tags : List String) : AppState :=
  { s with files := s.files.map (fun f =>
      if f.id == itemId then { f with tags := tags } else f) }

/-- `handleVisibilityToggle(targetId, roleToToggle)` (`src/App.tsx` lines
87-115): admins toggle membership of a role in `visibleTo` for the whole
selection batch (or just the target) and get a toast; everyone else gets
a permission toast.  No history commit. -/
def handleVisibilityToggle (u : Option User) (s : AppState) (targetId : String)
    (roleToToggle : UserRole) : AppState :=
  if !(match u with | some usr => usr.role == UserRole.ADMIN | none => false) then
    showPermissionError s
  else
    let idsToUpdate :=
      if s.selectedFileIds.contains targetId then s.selectedFileIds else [targetId]
    let s1 : AppState :=
      { s with files := s.files.map (fun f =>
          if idsToUpdate.contains f.id then
            if f.visibleTo.contains roleToToggle then
              { f with visibleTo := f.visibleTo.filter (fun r => !(r == roleToToggle)) }
            else { f with visibleTo := f.visibleTo ++ [roleToToggle] }
          else f) }
    showNotification ("Updated visibility for " ++ toString idsToUpdate.length ++ " item(s)") s1

/-- The inverse transformation applied to the file collection by the
`switch` of `performUndo` (`src/App.tsx` lines 143-212), one case per
action kind.  `now` stands for the `Date.now()` calls inside the `TRASH`
redo / `RESTORE` undo branches. -/
def undoAction (now : Nat) (p : HistoryPayload)
    (files : List FileSystemItem) : List FileSystemItem :=
  match p with
  | HistoryPayload.RENAME id oldName _ =>
    files.map (fun f => if f.id == id then { f with name := oldName } else f)
  | HistoryPayload.MOVE items =>
    files.map (fun f =>
      match items.find? (fun i => i.id == f.id) with
      | some moved =>
        { f with
          parentId := moved.oldParentId
          order := moved.oldOrder
          position := moved.oldPosition }
      | none => f)
  | HistoryPayload.TRASH ids =>
    files.map (fun f =>
      if ids.contains f.id then
        { f with parentId := some (jsOrRoot f.trashData), trashData := none }
      else f)
  | HistoryPayload.RESTORE ids =>
    -- the source reads `action.payload.originalParentId`, a field the
    -- RESTORE commit never stores: JavaScript `undefined`, i.e. `none`.
    files.map (fun f =>
      if ids.contains f.id then
        { f with
          parentId := some TRASH_ID
          trashData := some { originalParentId := none, dateTrashed := now } }
      else f)
  | HistoryPayload.REPOSITION id oldPosition _ =>
    files.map (fun f => if f.id == id then { f with position := oldPosition } else f)
  | HistoryPayload.SWAP sourceId targetId sourceOldOrder targetOldOrder _ _ =>
    updateOrderFirst targetId targetOldOrder (updateOrderFirst sourceId sourceOldOrder files)
  | HistoryPayload.DELETE deleted => files ++ deleted
  | HistoryPayload.CREATE id _ => files.filter (fun f => !(f.id == id))
  | HistoryPayload.PASTE newItems =>
    let pastedIds := newItems.map (fun f => f.id)
    files.filter (fun f => !(pastedIds.contains f.id))

/-- The forward transformation applied by the `switch` of `performRedo`
(`src/App.tsx` lines 225-293). -/
def redoAction (now : Nat) (p : HistoryPayload)
    (files : List FileSystemItem) : List FileSystemItem :=
  match p with
  | HistoryPayload.RENAME id _ newName =>
    files.map (fun f => if f.id == id then { f with name := newName } else f)
  | HistoryPayload.MOVE items =>
    files.map (fun f =>
      match items.find? (fun i => i.id == f.id) with
      | some moved =>
        { f with
          parentId := some moved.newParentId
          order := moved.newOrder
          position := moved.newPosition }
      | none => f)
  | HistoryPayload.TRASH ids =>
    files.map (fun f =>
      if ids.contains f.id then
        { f with
          parentId := some TRASH_ID
          trashData := some { originalParentId := f.parentId, dateTrashed := now } }
      else f)
  | HistoryPayload.RESTORE ids =>
    files.map (fun f =>
      if ids.contains f.id then
        { f with parentId := some (jsOrRoot f.trashData), trashData := none }
      else f)
  | HistoryPayload.REPOSITION id _ newPosition =>
    files.map (fun f => if f.id == id then { f with position := some newPosition } else f)
  | HistoryPayload.SWAP sourceId targetId _ _ sourceNewOrder targetNewOrder =>
    updateOrderFirst targetId targetNewOrder (updateOrderFirst sourceId sourceNewOrder files)
  | HistoryPayload.DELETE deleted =>
    let idsToDelete := deleted.map (fun f => f.id)
    files.filter (fun f => !(idsToDelete.contains f.id))
  | HistoryPayload.CREATE _ item => files ++ [item]
  | HistoryPayload.PASTE newItems => files ++ newItems

/-- `performUndo()` (`src/App.tsx` lines 136-217): no-op on an empty undo
stack; otherwise pop the most recent action, apply its inverse to the
collection, push the action onto the redo stack and toast. -/
def performUndo (now : Nat) (s : AppState) : AppState :=
  match s.undoStack with
  | [] => s
  | a :: rest =>
    showNotification ("Undid " ++ a.description)
      { s with
        files := undoAction now a.payload s.files
        undoStack := rest
        redoStack := a :: s.redoStack }

/-- `performRedo()` (`src/App.tsx` lines 219-298): symmetric to
`performUndo`, consuming the redo stack. -/
def performRedo (now : Nat) (s : AppState) : AppState :=
  match s.redoStack with
  | [] => s
  | a :: rest =>
    showNotification ("Redid " ++ a.description)
      { s with
        files := redoAction now a.payload s.files
        redoStack := rest
        undoStack := a :: s.undoStack }

/-- Iterated `performUndo`, one `Date.now()` value per call. -/
def undoTimes : List Nat → AppState → AppState
  | [], s => s
  | t :: ts, s => undoTimes ts (performUndo t s)

/-- Iterated `performRedo`. -/
def redoTimes : List Nat → AppState → AppState
  | [], s => s
  | t :: ts, s => redoTimes ts (performRedo t s)

/-- A mutating user command of the command surface, carrying its external
inputs: the logged-in user, the `Date.now()` reading and any fresh-id
generator. -/
inductive Cmd where
  | rename (u : Option User) (now : Nat) (id newName : String)
  | move (u : Option User) (now : Nat) (sourceId targetFolderId : String)
      (newPos : Option Pos)
  | reposition (u : Option User) (now : Nat) (id : String) (pos : Pos)
  | swap (u : Option User) (now : Nat) (sourceId targetId : String)
  | trash (u : Option User) (now : Nat) (ids : List String)
  | restore (now : Nat) (ids : List String)
  | pdelete (now : Nat) (ids : List String)
  | newFolder (u : Option User) (now : Nat) (targetParentId newId : String)
  | paste (u : Option User) (now : Nat) (gen : Nat → String) (targetFolderId : String)

/-- Dispatch a command to its handler. -/
def applyCmd (c : Cmd) (s : AppState) : AppState :=
  match c with
  | Cmd.rename u now id newName => handleRenameConfirm u now s id newName
  | Cmd.move u now sourceId targetFolderId newPos =>
    handleMoveFile u now s sourceId targetFolderId newPos
  | Cmd.reposition u now id pos => handleReposition u now s id pos
  | Cmd.swap u now sourceId targetId => handleSwapFile u now s sourceId targetId
  | Cmd.trash u now ids => handleMoveToTrash u now s ids
  | Cmd.restore now ids => handleRestoreFile now s ids
  | Cmd.pdelete now ids => handlePermanentDelete now s ids
  | Cmd.newFolder u now targetParentId newId => handleNewFolderAction u now s targetParentId newId
  | Cmd.paste u now gen targetFolderId => handlePaste u now gen s targetFolderId

/-- Apply a command sequence left to right. -/
def applyCmds : List Cmd → AppState → AppState
  | [], s => s
  | c :: cs, s => applyCmds cs (applyCmd c s)

/-- Two file collections are equivalent when lookup by id agrees on every
id: every item, addressed by its id, is field-by-field equal.  (The order
of the underlying lists may differ: undoing a permanent delete re-appends
the resurrected snapshots at the tail.) -/
def collEquiv (F G : List FileSystemItem) : Prop :=
  ∀ q : String, findById F q = findById G q

/-- A history action `a` exactly mediates between the collection `F`
(before) and `F'` (after): applied to anything equivalent to `F'` its
undo transformation lands on `F`, and applied to anything equivalent to
`F` its redo transformation lands on `F'`. -/
def ActionOK (a : HistoryPayload) (F F' : List FileSystemItem) : Prop :=
  (∀ (now : Nat) (G : List FileSystemItem),
      collEquiv G F' → collEquiv (undoAction now a G) F) ∧
  (∀ (now : Nat) (G : List FileSystemItem),
      collEquiv G F → collEquiv (redoAction now a G) F')

/-- The undo stack (head = most recently committed) exactly mediates
between a base collection and the current collection. -/
inductive StackOK : List HistoryAction → List FileSystemItem → List FileSystemItem → Prop
  | nil (F : List FileSystemItem) : StackOK [] F F
  | cons (a : HistoryAction) (l : List HistoryAction)
      (F F1 F2 : List FileSystemItem) :
      ActionOK a.payload F1 F2 → StackOK l F F1 → StackOK (a :: l) F F2

/-- A forward replay chain: the head action mediates the first step. -/
inductive ChainOK : List HistoryAction → List FileSystemItem → List FileSystemItem → Prop
  | nil (F : List FileSystemItem) : ChainOK [] F F
  | cons (a : HistoryAction) (l : List HistoryAction)
      (F F1 F2 : List FileSystemItem) :
      ActionOK a.payload F F1 → ChainOK l F1 F2 → ChainOK (a :: l) F F2

/-- The command kinds whose committed history action inverts the mutation
exactly (`reposition`, `swap`, `permanent delete`, `new folder`, `paste`),
together with the per-state side conditions under which the handler
commits and fresh ids really are fresh. -/
def goodStep (c : Cmd) (s : AppState) : Bool :=
  match c with
  | Cmd.reposition u _ id _ =>
    (match findById s.files id with
     | some f => hasPermission u f
     | none => false)
  | Cmd.swap u _ sourceId targetId =>
    (match findById s.files sourceId, findById s.files targetId with
     | some sf, some tf => hasPermission u sf && hasPermission u tf
     | _, _ => false)
  | Cmd.pdelete _ _ => true
  | Cmd.newFolder u _ targetParentId newId =>
    !(targetParentId == TRASH_ID) && !(strStartsWith targetParentId "tag:") &&
    (targetParentId == "root" ||
      (match findById s.files targetParentId with
       | some f => hasPermission u f
       | none => true)) &&
    !((s.files.map (fun f => f.id)).contains newId)
  | Cmd.paste u now gen targetFolderId =>
    (match s.clipboard with
     | none => false
     | some cb =>
       !cb.ids.isEmpty && !(targetFolderId == TRASH_ID) &&
       !(strStartsWith targetFolderId "tag:") &&
       (targetFolderId == "root" ||
         (match findById s.files targetFolderId with
          | some f => hasPermission u f
          | none => true)) &&
       (let newItems := pasteNewItems s.files now gen cb.ids targetFolderId
        !newItems.isEmpty &&
        newItems.all (fun it => !((s.files.map (fun f => f.id)).contains it.id))))
  | _ => false

/-- Every step of the sequence is a good step at the state it reaches. -/
def goodSeq : AppState → List Cmd → Bool
  | _, [] => true
  | s, c :: cs => goodStep c s && goodSeq (applyCmd c s) cs

/-- The paste collision candidate sequence as implemented: index 0 is the
original name, index `k + 1` is the candidate built with counter
`k + 1`. -/
def pasteProbe (name : String) : Nat → String
  | 0 => name
  | k + 1 => mkCopyCandidate name (k + 1)

/-- The new-folder candidate sequence as implemented: `'Untitled Folder'`,
`'Untitled Folder 2'`, `'Untitled Folder 3'`, ... -/
def newFolderProbe : Nat → String
  | 0 => "Untitled Folder"
  | k + 1 => "Untitled Folder " ++ toString (k + 2)

/-- The collision candidate as the specification words it: "splits the
name at the last dot to preserve the extension" — i.e. the split happens
whenever the name contains a dot, with no special case for a leading dot.
Stated from the spec only, to compare the claimed algorithm with the
implemented one. -/
def specSplitCandidate (name : String) (counter : Nat) : String :=
  let chars := name.toList
  let suffix := " copy" ++ (if counter > 1 then " " ++ toString counter else "")
  match lastDotAux chars 0 with
  | some j => String.mk (chars.take j) ++ suffix ++ String.mk (chars.drop j)
  | none => name ++ suffix

/-- The spec-worded collision loop (same probing discipline, spec-worded
candidate). -/
def specPasteCollisionLoop (usedNames : List String) (name : String) :
    Nat → Nat → String → String
  | 0, _, cand => cand
  | fuel + 1, counter, cand =>
    if usedNames.contains cand then
      specPasteCollisionLoop usedNames name fuel (counter + 1) (specSplitCandidate name counter)
    else cand

/-- The paste name-collision algorithm exactly as the specification
describes it. -/
def specPasteCollisionName (usedNames : List String) (name : String) : String :=
  specPasteCollisionLoop usedNames name (usedNames.length + 2) 1 name

/-- Concrete fixture: the admin user. -/
def adminUser : User :=
  { id := "u_admin"
    username := "admin"
    password := some "admin"
    fullName := "System Administrator"
    role := UserRole.ADMIN
    labRole := "Team Lead"
    avatar := none
    bio := none }

/-- Concrete fixture: a plain item. -/
def sampleItem (i : String) (p : Option String) (n : String) (t : FileType)
    (o : Int) (pos : Option Pos) : FileSystemItem :=
  { id := i
    parentId := p
    name := n
    type := t
    size := none
    content := none
    dateModified := 0
    dateCreated := some 0
    colorTag := none
    tags := []
    order := o
    position := pos
    visibleTo := [UserRole.USER, UserRole.JUNIOR]
    ownerId := none
    trashData := none }

/-- Concrete fixture: an empty-history state holding the given files. -/
def sampleState (files : List FileSystemItem) : AppState :=
  { files := files
    undoStack := []
    redoStack := []
    clipboard := none
    selectedFileIds := []
    notifications := [] }

/-- Fixture for the history-law counterexample: item `X` with an explicit
desktop position, inside folder `A`. -/
def ceHistState : AppState :=
  sampleState
    [sampleItem "X" (some "A") "x.txt" FileType.TEXT 1 (some { x := 5, y := 5 }),
     sampleItem "A" (some "root") "A" FileType.FOLDER 2 none]

/-- Fixture for the move-cycle counterexample: folder `A` at the root,
folder `D` inside `A`, file `B` at the root, with `A` and `B`
co-selected. -/
def ceCycleState : AppState :=
  { sampleState
      [sampleItem "A" (some "root") "A" FileType.FOLDER 1 none,
       sampleItem "D" (some "A") "D" FileType.FOLDER 2 none,
       sampleItem "B" (some "root") "B" FileType.TEXT 3 none] with
    selectedFileIds := ["A", "B"] }

/-- Fixture for the paste scenarios: folder `F` containing
`report.txt`, which is also on the clipboard. -/
def cePasteState : AppState :=
  { sampleState
      [sampleItem "F" (some "root") "F" FileType.FOLDER 1 none,
       sampleItem "r1" (some "F") "report.txt" FileType.TEXT 2 none] with
    clipboard := some { ids := ["r1"] } }

/-- The paste scenario after one paste: `report copy.txt` exists too. -/
def cePasteState2 : AppState :=
  { sampleState
      [sampleItem "F" (some "root") "F" FileType.FOLDER 1 none,
       sampleItem "r1" (some "F") "report.txt" FileType.TEXT 2 none,
       sampleItem "r2" (some "F") "report copy.txt" FileType.TEXT 3 none] with
    clipboard := some { ids := ["r1"] } }

/-- Fixture for the new-folder scenario: the root already holds an item
named `Untitled Folder`. -/
def ceNewFolderState : AppState :=
  sampleState [sampleItem "uf" (some "root") "Untitled Folder" FileType.FOLDER 1 none]

/-- Fixture for the dotfile paste scenario: folder `F` containing
`.bashrc`, which is also on the clipboard. -/
def ceDotfileState : AppState :=
  { sampleState
      [sampleItem "F" (some "root") "F" FileType.FOLDER 1 none,
       sampleItem "b1" (some "F") ".bashrc" FileType.TEXT 2 none] with
    clipboard := some { ids := ["b1"] } }

/-- Fixture with one undoable action already on the history stack. -/
def ceUndoState : AppState :=
  { sampleState [sampleItem "X" (some "root") "x.txt" FileType.TEXT 1 none] with
    undoStack :=
      [{ payload := HistoryPayload.RENAME "X" "a.txt" "x.txt"
         description := "Rename"
         timestamp := 0 }] }

theorem findById_nil (q : String) : findById [] q = none := rfl

theorem findById_cons (f : FileSystemItem) (l : List FileSystemItem) (q : String) :
    findById (f :: l) q = if (f.id == q) = true then some f else findById l q := by
  by_cases h : (f.id == q) = true <;> simp [findById, List.find?, h]

theorem findById_eq_id {l : List FileSystemItem} {q : String} {f : FileSystemItem}
    (h : findById l q = some f) : f.id = q := by
  have := List.find?_some h
  simpa using this

theorem findById_map (u : FileSystemItem → FileSystemItem)
    (hu : ∀ f, (u f).id = f.id) (l : List FileSystemItem) (q : String) :
    findById (l.map u) q = (findById l q).map u := by
  induction l with
  | nil => rfl
  | cons f fs ih =>
    rw [List.map_cons, findById_cons, findById_cons, hu]
    by_cases h : (f.id == q) = true
    · simp [h]
    · simp [h, ih]

theorem findById_append_left {l1 : List FileSystemItem} {q : String}
    {f : FileSystemItem} (h : findById l1 q = some f) (l2 : List FileSystemItem) :
    findById (l1 ++ l2) q = some f := by
  induction l1 with
  | nil => simp [findById] at h
  | cons g gs ih =>
    rw [List.cons_append, findById_cons]
    rw [findById_cons] at h
    by_cases hg : (g.id == q) = true
    · simpa [hg] using h
    · rw [if_neg hg] at h
      simp [hg, ih h]

theorem findById_append_right {l1 : List FileSystemItem} {q : String}
    (h : findById l1 q = none) (l2 : List FileSystemItem) :
    findById (l1 ++ l2) q = findById l2 q := by
  induction l1 with
  | nil => rfl
  | cons g gs ih =>
    rw [List.cons_append, findById_cons]
    rw [findById_cons] at h
    by_cases hg : (g.id == q) = true
    · simp [hg] at h
    · rw [if_neg hg] at h
      simp [hg, ih h]

theorem findById_filter (p : String → Bool) (l : List FileSystemItem) (q : String) :
    findById (l.filter (fun f => p f.id)) q =
      if p q = true then findById l q else none := by
  induction l with
  | nil => simp [findById]
  | cons f fs ih =>
    rw [List.filter_cons]
    by_cases hid : (f.id == q) = true
    · have hq : f.id = q := by simpa using hid
      by_cases hp : p f.id = true
      · rw [if_pos hp, findById_cons, if_pos hid, hq] at *
        rw [if_pos (hq ▸ hp), findById_cons, if_pos hid]
      · rw [if_neg hp, ih]
        have hpq : p q = false := by rw [← hq]; simpa using hp
        simp [hpq]
    · by_cases hp : p f.id = true
      · rw [if_pos hp, findById_cons, if_neg hid, ih, findById_cons, if_neg hid]
      · rw [if_neg hp, ih, findById_cons, if_neg hid]

theorem findById_eq_none_iff {l : List FileSystemItem} {q : String} :
    findById l q = none ↔ ∀ f ∈ l, f.id ≠ q := by
  constructor
  · intro h f hf hfq
    induction l with
    | nil => simp at hf
    | cons g gs ih =>
      rw [findById_cons] at h
      by_cases hg : (g.id == q) = true
      · simp [hg] at h
      · rw [if_neg hg] at h
        rcases List.mem_cons.mp hf with hfg | hfgs
        · subst hfg
          exact hg (by simpa using hfq)
        · exact ih h hfgs
  · intro h
    induction l with
    | nil => rfl
    | cons g gs ih =>
      rw [findById_cons]
      have hg : (g.id == q) ≠ true := by
        simpa using h g (List.mem_cons_self g gs)
      rw [if_neg hg]
      exact ih (fun f hf => h f (List.mem_cons_of_mem g hf))

theorem findById_not_contains {l : List FileSystemItem} {q : String}
    (h : ((l.map (fun f => f.id)).contains q) = false) : findById l q = none := by
  rw [findById_eq_none_iff]
  intro f hf hfq
  have : q ∈ l.map (fun f => f.id) := by
    exact List.mem_map.mpr ⟨f, hf, hfq⟩
  rw [List.contains_eq_any_beq] at h
  have : (l.map (fun f => f.id)).any (fun x => q == x) = true := by
    rw [List.any_eq_true]
    exact ⟨q, this, by simp⟩
  simp [this] at h

theorem map_eq_self_of_fix {α : Type} (l : List α) (g : α → α)
    (h : ∀ x ∈ l, g x = x) : l.map g = l := by
  induction l with
  | nil => rfl
  | cons a as ih =>
    rw [List.map_cons, h a (List.mem_cons_self a as),
      ih (fun x hx => h x (List.mem_cons_of_mem a hx))]

theorem findById_updateOrderFirst (x : String) (o : Int)
    (l : List FileSystemItem) (q : String) :
    findById (updateOrderFirst x o l) q =
      if (q == x) = true then (findById l q).map (fun f => { f with order := o })
      else findById l q := by
  induction l with
  | nil => by_cases h : (q == x) = true <;> simp [updateOrderFirst, findById, h]
  | cons f fs ih =>
    rw [show updateOrderFirst x o (f :: fs) =
        if (f.id == x) = true then { f with order := o } :: fs
        else f :: updateOrderFirst x o fs from rfl]
    by_cases hfx : (f.id == x) = true
    · have hfx' : f.id = x := by simpa using hfx
      rw [if_pos hfx]
      by_cases hq : (q == x) = true
      · have hq' : q = x := by simpa using hq
        have hfq : (f.id == q) = true := by simp [hfx', hq']
        rw [findById_cons, findById_cons]
        simp only [show ({ f with order := o } : FileSystemItem).id = f.id from rfl]
        rw [if_pos hfq, if_pos hfq, if_pos hq]
        simp
      · have hq' : q ≠ x := by simpa using hq
        have hfq : (f.id == q) ≠ true := by
          intro h
          have h' : f.id = q := by simpa using h
          exact hq' (h'.symm.trans hfx')
        rw [findById_cons, findById_cons]
        simp only [show ({ f with order := o } : FileSystemItem).id = f.id from rfl]
        rw [if_neg hfq, if_neg hfq, if_neg hq]
    · rw [if_neg hfx, findById_cons, findById_cons]
      by_cases hfq : (f.id == q) = true
      · have hfq' : f.id = q := by simpa using hfq
        have hq : (q == x) ≠ true := by
          intro h
          have h' : q = x := by simpa using h
          exact hfx (by simp [hfq', h'])
        rw [if_pos hfq, if_pos hfq, if_neg hq]
      · rw [if_neg hfq, if_neg hfq, ih]

/-- C9: `isFileVisible` returns true unconditionally for a logged-in
`ADMIN`, and for every other logged-in user it returns true iff the
user's role is a member of the item's `visibleTo` set. -/
theorem c9_visibility (u : User) (item : FileSystemItem) :
    (u.role = UserRole.ADMIN → isFileVisible (some u) item = true) ∧
    (u.role ≠ UserRole.ADMIN →
      (isFileVisible (some u) item = true ↔ u.role ∈ item.visibleTo)) := by
  constructor
  · intro h
    simp [isFileVisible, h]
  · intro h
    have hb : (u.role == UserRole.ADMIN) ≠ true := by simpa using h
    simp [isFileVisible, hb]

/-- Witness for C9 at a concrete admin user and item. -/
theorem c9_visibility_witness :
    adminUser.role = UserRole.ADMIN ∧
    isFileVisible (some adminUser)
      (sampleItem "z" (some "root") "z" FileType.TEXT 1 none) = true := by
  refine ⟨rfl, ?_⟩
  exact (c9_visibility adminUser
    (sampleItem "z" (some "root") "z" FileType.TEXT 1 none)).1 rfl

/-- C10: the toggle-visibility and update-tags commands rewrite the
item's `visibleTo`/`tags` sets in the collection but never push a
`HistoryAction`: both history stacks are left exactly as they were (for
`handleVisibilityToggle`, `updateVisibility` and `updateTags` alike), so
these changes can never be undone or redone. -/
theorem c10_no_history (u : Option User) (s : AppState) (targetId itemId : String)
    (role : UserRole) (tags : List String) (vis : List UserRole) :
    (handleVisibilityToggle u s targetId role).undoStack = s.undoStack ∧
    (handleVisibilityToggle u s targetId role).redoStack = s.redoStack ∧
    (updateVisibility u s itemId vis).undoStack = s.undoStack ∧
    (updateVisibility u s itemId vis).redoStack = s.redoStack ∧
    (updateTags s itemId tags).undoStack = s.undoStack ∧
    (updateTags s itemId tags).redoStack = s.redoStack ∧
    (updateTags s itemId tags).files =
      s.files.map (fun f => if f.id == itemId then { f with tags := tags } else f) := by
  refine ⟨?_, ?_, ?_, ?_, rfl, rfl, rfl⟩
  · unfold handleVisibilityToggle showPermissionError showNotification
    split <;> rfl
  · unfold handleVisibilityToggle showPermissionError showNotification
    split <;> rfl
  · unfold updateVisibility showPermissionError showNotification
    split <;> rfl
  · unfold updateVisibility showPermissionError showNotification
    split <;> rfl

/-- C4: for an item with a live (non-null, non-empty) parent id,
move-to-trash followed by restore puts the item back under its original
parent with `trashData` cleared and the id untouched (the explicit
desktop position, cleared on trashing, stays cleared). -/
theorem c4_trash_restore (u : User) (now1 now2 : Nat) (s : AppState)
    (ids : List String) (X : FileSystemItem) (p : String)
    (hperm : ∀ f ∈ s.files, ids.contains f.id = true → hasPermission (some u) f = true)
    (hX : X ∈ s.files) (hid : ids.contains X.id = true)
    (hp : X.parentId = some p) (hpne : p ≠ "") :
    ({ X with position := none, trashData := none } : FileSystemItem) ∈
      (handleRestoreFile now2 (handleMoveToTrash (some u) now1 s ids) ids).files := by
  have hany : (s.files.filter (fun f => ids.contains f.id)).any
      (fun f => !(hasPermission (some u) f)) = false := by
    rw [List.any_eq_false]
    intro f hf
    have hmem := List.mem_filter.mp hf
    have hc : ids.contains f.id = true := by simpa using hmem.2
    simp [hperm f hmem.1 hc]
  have h1 : (handleMoveToTrash (some u) now1 s ids).files =
      s.files.map (fun f =>
        if ids.contains f.id then
          { f with
            parentId := some TRASH_ID
            position := none
            trashData := some { originalParentId := f.parentId, dateTrashed := now1 } }
        else f) := by
    unfold handleMoveToTrash
    rw [if_neg (by rw [hany]; simp)]
    rfl
  have h2 : (handleRestoreFile now2 (handleMoveToTrash (some u) now1 s ids) ids).files =
      ((handleMoveToTrash (some u) now1 s ids).files).map (fun f =>
        if ids.contains f.id then
          { f with parentId := some (jsOrRoot f.trashData), trashData := none }
        else f) := rfl
  rw [h2, h1, List.map_map]
  refine List.mem_map.mpr ⟨X, hX, ?_⟩
  simp only [Function.comp_apply, hid, ite_true, jsOrRoot, hp, hpne]
  simp [hp, hpne]

/-- C4 witness: trash then restore `X` (which sits in folder `A` with an
explicit position) in the concrete fixture state. -/
theorem c4_trash_restore_witness :
    (∀ f ∈ ceHistState.files, ["X"].contains f.id = true →
      hasPermission (some adminUser) f = true) ∧
    ({ sampleItem "X" (some "A") "x.txt" FileType.TEXT 1 (some { x := 5, y := 5 }) with
        position := none, trashData := none } : FileSystemItem) ∈
      (handleRestoreFile 9 (handleMoveToTrash (some adminUser) 7 ceHistState ["X"])
        ["X"]).files := by
  refine ⟨by decide, ?_⟩
  exact c4_trash_restore adminUser 7 9 ceHistState ["X"]
    (sampleItem "X" (some "A") "x.txt" FileType.TEXT 1 (some { x := 5, y := 5 })) "A"
    (by decide) (by decide) (by decide) (by decide) (by decide)

/-- C1 counterexample: the single-command sequence `[move-to-trash X]`
followed by one undo does not restore the pre-sequence snapshot:
trashing clears `X`'s explicit position and the undo branch never
restores it, so the item differs field-by-field from its pre-sequence
value. -/
theorem c1_counterexample :
    findById (undoTimes [9]
        (applyCmds [Cmd.trash (some adminUser) 7 ["X"]] ceHistState)).files "X" ≠
      findById ceHistState.files "X" := by decide

/-- C2 counterexample: `D` lies strictly below folder `A` (the move-cycle
walk from `D` reaches `A`), yet dragging co-selected item `B` while `A`
is part of the selection moves `A` into `D`: the guard only checks the
drag source, the collection changes and a cycle is created. -/
theorem c2_counterexample :
    moveCycleGuard ceCycleState.files "A" "D" = true ∧
    (findById (handleMoveFile (some adminUser) 7 ceCycleState "B" "D" none).files "A").map
        (fun f => f.parentId) = some (some "D") := by decide

/-- C3 counterexample: move-to-trash with an id that matches no item
leaves the collection unchanged but still pushes a `TRASH`
`HistoryAction` onto the undo stack. -/
theorem c3_counterexample :
    (handleMoveToTrash (some adminUser) 7 ceHistState ["ghost"]).files =
      ceHistState.files ∧
    (handleMoveToTrash (some adminUser) 7 ceHistState ["ghost"]).undoStack.length =
      ceHistState.undoStack.length + 1 := by decide

/-- C5 counterexample: for a name whose only dot is its first character
the implementation does not split at the last dot — pasting `.bashrc`
onto a sibling `.bashrc` yields `.bashrc copy`, while the spec-worded
split-at-last-dot algorithm would yield ` copy.bashrc`. -/
theorem c5_counterexample :
    pasteCollisionName [".bashrc"] ".bashrc" = ".bashrc copy" ∧
    specPasteCollisionName [".bashrc"] ".bashrc" = " copy.bashrc" ∧
    (((handlePaste (some adminUser) 7 (fun n => "n" ++ toString n)
        ceDotfileState "F").files.map (fun f => f.name)).contains ".bashrc copy") = true ∧
    ".bashrc copy" ≠ " copy.bashrc" := by decide

/-- C6 counterexample: creating a folder where `Untitled Folder` already
exists yields `Untitled Folder 2`, not the `base copy` scheme the claim
says new-folder shares with paste (that scheme would yield
`Untitled Folder copy`). -/
theorem c6_counterexample :
    ((handleNewFolderAction (some adminUser) 7 ceNewFolderState "root" "nf1").files.map
        (fun f => f.name)) = ["Untitled Folder", "Untitled Folder 2"] ∧
    pasteCollisionName ["Untitled Folder"] "Untitled Folder" = "Untitled Folder copy" ∧
    ("Untitled Folder 2" : String) ≠ "Untitled Folder copy" := by decide

/-- C8 counterexample: moving folder `A` into its own descendant `D` is
rejected, but entirely silently — the state (including the notification
log) is unchanged, so no notification is surfaced to the user. -/
theorem c8_counterexample :
    handleMoveFile (some adminUser) 7 ceCycleState "A" "D" none = ceCycleState := by decide

theorem pasteLoop_first_free (used : List String) (name : String) :
    ∀ (k fuel counter : Nat) (cand : String) (e : Nat → String),
      e 0 = cand →
      (∀ j, e (j + 1) = mkCopyCandidate name (counter + j)) →
      k < fuel →
      (∀ j, j < k → used.contains (e j) = true) →
      used.contains (e k) = false →
      pasteCollisionLoop used name fuel counter cand = e k := by
  intro k
  induction k with
  | zero =>
    intro fuel counter cand e he0 _ hfuel _ hfree
    cases fuel with
    | zero => omega
    | succ f =>
      rw [pasteCollisionLoop]
      rw [he0] at hfree
      rw [if_neg (by rw [hfree]; simp), he0]
  | succ k ih =>
    intro fuel counter cand e he0 hes hfuel hcoll hfree
    cases fuel with
    | zero => omega
    | succ f =>
      rw [pasteCollisionLoop]
      have h0 : used.contains cand = true := by
        rw [← he0]; exact hcoll 0 (Nat.succ_pos k)
      rw [if_pos h0]
      refine ih f (counter + 1) (mkCopyCandidate name counter) (fun j => e (j + 1))
        ?_ ?_ (by omega) ?_ hfree
      · show e (0 + 1) = mkCopyCandidate name counter
        rw [hes 0, Nat.add_zero]
      · intro j
        show e (j + 1 + 1) = mkCopyCandidate name (counter + 1 + j)
        rw [hes (j + 1)]
        rw [show counter + (j + 1) = counter + 1 + j from by omega]
      · intro j hj
        exact hcoll (j + 1) (by omega)

theorem newFolderLoop_first_free (used : List String) (base : String) :
    ∀ (k fuel counter : Nat) (cand : String) (e : Nat → String),
      e 0 = cand →
      (∀ j, e (j + 1) = base ++ " " ++ toString (counter + j)) →
      k < fuel →
      (∀ j, j < k → used.contains (e j) = true) →
      used.contains (e k) = false →
      newFolderNameLoop used base fuel counter cand = e k := by
  intro k
  induction k with
  | zero =>
    intro fuel counter cand e he0 _ hfuel _ hfree
    cases fuel with
    | zero => omega
    | succ f =>
      rw [newFolderNameLoop]
      rw [he0] at hfree
      rw [if_neg (by rw [hfree]; simp), he0]
  | succ k ih =>
    intro fuel counter cand e he0 hes hfuel hcoll hfree
    cases fuel with
    | zero => omega
    | succ f =>
      rw [newFolderNameLoop]
      have h0 : used.contains cand = true := by
        rw [← he0]; exact hcoll 0 (Nat.succ_pos k)
      rw [if_pos h0]
      refine ih f (counter + 1) (base ++ " " ++ toString counter) (fun j => e (j + 1))
        ?_ ?_ (by omega) ?_ hfree
      · show e (0 + 1) = base ++ " " ++ toString counter
        rw [hes 0, Nat.add_zero]
      · intro j
        show e (j + 1 + 1) = base ++ " " ++ toString (counter + 1 + j)
        rw [hes (j + 1)]
        rw [show counter + (j + 1) = counter + 1 + j from by omega]
      · intro j hj
        exact hcoll (j + 1) (by omega)

theorem foldl_fst_extends {α γ : Type} (step : (List γ × Nat) → α → (List γ × Nat))
    (h : ∀ acc x, ∃ t, (step acc x).1 = acc.1 ++ t) :
    ∀ (l : List α) (acc : List γ × Nat), ∃ rest, (l.foldl step acc).1 = acc.1 ++ rest := by
  intro l
  induction l with
  | nil => intro acc; exact ⟨[], by simp⟩
  | cons x xs ih =>
    intro acc
    obtain ⟨t, ht⟩ := h acc x
    obtain ⟨rest, hrest⟩ := ih (step acc x)
    exact ⟨t ++ rest, by rw [List.foldl_cons, hrest, ht, List.append_assoc]⟩

/-- C5 (amended): pasting `report.txt` onto an existing `report.txt`
yields `report copy.txt`, pasting again yields `report copy 2.txt`; in
general the paste collision resolution returns the first unused candidate
of the probe sequence `name`, `name copy`, `name copy 2`, ... (splitting
at the last dot only when that dot is not the first character), and it
renames only the top-level pasted item — a non-root clone keeps the
original name. -/
theorem c5_amended :
    (((handlePaste (some adminUser) 7 (fun n => "n" ++ toString n) cePasteState
        "F").files.map (fun f => f.name)).contains "report copy.txt") = true ∧
    (((handlePaste (some adminUser) 7 (fun n => "n" ++ toString n) cePasteState2
        "F").files.map (fun f => f.name)).contains "report copy 2.txt") = true ∧
    (∀ (used : List String) (name : String) (k : Nat),
      k < used.length + 2 →
      (∀ j, j < k → used.contains (pasteProbe name j) = true) →
      used.contains (pasteProbe name k) = false →
      pasteCollisionName used name = pasteProbe name k) ∧
    (∀ (files : List FileSystemItem) (now : Nat) (gen : Nat → String)
        (fuel k : Nat) (itemId parent : String) (item : FileSystemItem),
      findById files itemId = some item →
      ((copyItemRec files now gen (fuel + 1) k itemId parent false).1.map
        (fun f => f.name)).head? = some item.name) := by
  refine ⟨by decide, by decide, ?_, ?_⟩
  · intro used name k hk hcoll hfree
    exact pasteLoop_first_free used name k (used.length + 2) 1 name (pasteProbe name)
      rfl (fun j => by rw [Nat.add_comm 1 j]; rfl) hk hcoll hfree
  · intro files now gen fuel k itemId parent item hfind
    simp only [copyItemRec, hfind]
    by_cases hft : (item.type == FileType.FOLDER) = true
    · rw [if_pos hft]
      have key : ∀ (l : List FileSystemItem) (acc : List FileSystemItem × Nat),
          acc.1.head?.map (fun f => f.name) = some item.name →
          (((l.foldl (fun (acc : List FileSystemItem × Nat) c =>
              let r1 := copyItemRec files now gen fuel acc.2 c.id (gen k) false
              (acc.1 ++ r1.1, r1.2)) acc).1).map (fun f => f.name)).head? =
            some item.name := by
        intro l
        induction l with
        | nil =>
          intro acc hacc
          rw [List.foldl_nil, List.head?_map]
          exact hacc
        | cons c cs ih =>
          intro acc hacc
          rw [List.foldl_cons]
          apply ih
          cases hacc1 : acc.1 with
          | nil => rw [hacc1] at hacc; simp at hacc
          | cons a t =>
            rw [hacc1] at hacc
            simpa using hacc
      apply key
      simp
    · rw [if_neg hft]
      simp

/-- Witness for C5's universally quantified parts at concrete inputs. -/
theorem c5_amended_witness :
    (["report.txt"].contains (pasteProbe "report.txt" 0) = true ∧
      ["report.txt"].contains (pasteProbe "report.txt" 1) = false ∧
      pasteCollisionName ["report.txt"] "report.txt" = pasteProbe "report.txt" 1) ∧
    (findById cePasteState.files "r1" =
        some (sampleItem "r1" (some "F") "report.txt" FileType.TEXT 2 none) ∧
      ((copyItemRec cePasteState.files 7 (fun n => "n" ++ toString n) 2 0 "r1" "F"
          false).1.map (fun f => f.name)).head? = some "report.txt") := by
  constructor
  · refine ⟨by decide, by decide, ?_⟩
    exact (c5_amended.2.2.1) ["report.txt"] "report.txt" 1 (by decide)
      (by intro j hj; interval_cases j <;> decide) (by decide)
  · refine ⟨by decide, ?_⟩
    exact (c5_amended.2.2.2) cePasteState.files 7 (fun n => "n" ++ toString n) 1 0
      "r1" "F" (sampleItem "r1" (some "F") "report.txt" FileType.TEXT 2 none) (by decide)

/-- C6 (amended): the create-folder operation does not use the paste
`copy` scheme: it resolves sibling collisions by probing
`base`, `base 2`, `base 3`, ... and assigns the first unused candidate
(concretely, creating a folder where `Untitled Folder` exists yields
`Untitled Folder 2`). -/
theorem c6_amended :
    ((handleNewFolderAction (some adminUser) 7 ceNewFolderState "root" "nf1").files.map
        (fun f => f.name)) = ["Untitled Folder", "Untitled Folder 2"] ∧
    (∀ (used : List String) (k : Nat),
      k < used.length + 2 →
      (∀ j, j < k → used.contains (newFolderProbe j) = true) →
      used.contains (newFolderProbe k) = false →
      newFolderName used = newFolderProbe k) := by
  refine ⟨by decide, ?_⟩
  intro used k hk hcoll hfree
  refine newFolderLoop_first_free used "Untitled Folder" k (used.length + 2) 2
    "Untitled Folder" newFolderProbe rfl ?_ hk hcoll hfree
  intro j
  rw [show (2 : Nat) + j = j + 2 from by omega]
  rw [newFolderProbe]
  rw [show ("Untitled Folder" ++ " " : String) = "Untitled Folder " from by decide]

/-- Witness for C6's universally quantified part at a concrete input. -/
theorem c6_amended_witness :
    ["Untitled Folder"].contains (newFolderProbe 0) = true ∧
    ["Untitled Folder"].contains (newFolderProbe 1) = false ∧
    newFolderName ["Untitled Folder"] = newFolderProbe 1 := by
  refine ⟨by decide, by decide, ?_⟩
  exact c6_amended.2 ["Untitled Folder"] 1 (by decide)
    (by intro j hj; interval_cases j <;> decide) (by decide)

/-- C2 (amended): when the dragged source itself is `A`, moving `A` into
`A` or into any destination whose upward parent-chain walk reaches `A`
(the implemented cycle guard, for a non-trash destination) is rejected:
the file collection and both history stacks are unchanged.  (The
counterexample shows the guard does not protect co-selected items.) -/
theorem c2_amended (u : Option User) (now : Nat) (s : AppState) (A D : String)
    (pos : Option Pos)
    (h : D = A ∨ (D ≠ TRASH_ID ∧ moveCycleGuard s.files A D = true)) :
    (handleMoveFile u now s A D pos).files = s.files ∧
    (handleMoveFile u now s A D pos).undoStack = s.undoStack ∧
    (handleMoveFile u now s A D pos).redoStack = s.redoStack := by
  simp only [handleMoveFile]
  by_cases hAD : (A == D) = true
  · rw [if_pos hAD]
    exact ⟨rfl, rfl, rfl⟩
  · rw [if_neg hAD]
    rcases h with h | ⟨hD, hguard⟩
    · exact absurd (by simp [h]) hAD
    · by_cases hsp : (match findById s.files A with
          | some f => !(hasPermission u f)
          | none => false) = true
      · rw [if_pos hsp]
        exact ⟨rfl, rfl, rfl⟩
      · rw [if_neg hsp, if_neg (show ¬(D == TRASH_ID) = true by simpa using hD)]
        by_cases htp : (if !(D == "root") then
            (match findById s.files D with
             | some f => !(hasPermission u f)
             | none => false)
          else false) = true
        · rw [if_pos htp]
          exact ⟨rfl, rfl, rfl⟩
        · rw [if_neg htp, if_pos hguard]
          exact ⟨rfl, rfl, rfl⟩

/-- Witness for C2 at the concrete cycle fixture: moving `A` into its
descendant `D` directly is rejected with no change. -/
theorem c2_amended_witness :
    ("D" = "A" ∨ ("D" ≠ TRASH_ID ∧ moveCycleGuard ceCycleState.files "A" "D" = true)) ∧
    (handleMoveFile (some adminUser) 7 ceCycleState "A" "D" none).files =
      ceCycleState.files := by
  refine ⟨Or.inr ⟨by decide, by decide⟩, ?_⟩
  exact (c2_amended (some adminUser) 7 ceCycleState "A" "D" none
    (Or.inr ⟨by decide, by decide⟩)).1

theorem contains_false_not_mem {l : List String} {a : String}
    (h : l.contains a = false) : a ∉ l := by
  intro hmem
  rw [List.contains_eq_any_beq] at h
  have ha : l.any (fun x => a == x) = true := by
    rw [List.any_eq_true]
    exact ⟨a, hmem, by simp⟩
  simp [ha] at h

theorem moveFold_noop (target : String) (now : Nat) (ids : List String) :
    ∀ (l : List FileSystemItem) (m : Int),
      (∀ f ∈ l, ids.contains f.id = true → f.parentId = some target) →
      moveFold target none now ids l m = (l, [], m) := by
  intro l
  induction l with
  | nil => intro m _; rfl
  | cons f fs ih =>
    intro m hall
    rw [moveFold]
    by_cases hf : (ids.contains f.id) = true
    · have hp : f.parentId = some target := hall f (List.mem_cons_self f fs) hf
      rw [if_pos hf,
        if_pos (show (f.parentId == some target && (none : Option Pos).isNone) = true by
          simp [hp]),
        ih m (fun g hg => hall g (List.mem_cons_of_mem f hg))]
    · rw [if_neg hf, ih m (fun g hg => hall g (List.mem_cons_of_mem f hg))]

theorem pasteNewItems_empty (files : List FileSystemItem) (now : Nat)
    (gen : Nat → String) (target : String) :
    ∀ (ids : List String),
      (∀ i ∈ ids, findById files i = none) →
      pasteNewItems files now gen ids target = [] := by
  have step : ∀ (ids : List String) (k : Nat),
      (∀ i ∈ ids, findById files i = none) →
      (ids.foldl
        (fun (acc : List FileSystemItem × Nat) i =>
          let r := copyItemRec files now gen (files.length + 1) acc.2 i target true
          (acc.1 ++ r.1, r.2))
        ([], k)) = ([], k) := by
    intro ids
    induction ids with
    | nil => intro k _; rfl
    | cons i is ih =>
      intro k hall
      rw [List.foldl_cons]
      have hfind : findById files i = none := hall i (List.mem_cons_self i is)
      have hred : copyItemRec files now gen (files.length + 1) k i target true =
          ([], k) := by
        rw [show files.length + 1 = files.length + 1 from rfl]
        simp [copyItemRec, hfind]
      simp only [hred]
      exact ih k (fun j hj => hall j (List.mem_cons_of_mem i hj))
  intro ids hall
  unfold pasteNewItems
  rw [step ids 0 hall]

/-- C3 (amended): rename-to-the-same-name and move-to-the-current-parent
(without a position change) are silently ignored — no state change, no
history record, no notification — and a paste whose clipboard ids match
no item changes nothing and commits nothing; but move-to-trash and
permanent delete push a `HistoryAction` even when the targeted id set
matches no item (the collection itself is unchanged then). -/
theorem c3_amended :
    (∀ (u : Option User) (now : Nat) (s : AppState) (id newName : String)
        (file : FileSystemItem),
      findById s.files id = some file →
      (file.parentId == some TRASH_ID) = false →
      hasPermission u file = true →
      file.name = jsTrim newName →
      handleRenameConfirm u now s id newName = s) ∧
    (∀ (u : Option User) (now : Nat) (s : AppState) (sourceId target : String),
      (target == TRASH_ID) = false →
      (∀ f, findById s.files sourceId = some f → hasPermission u f = true) →
      (∀ f, findById s.files target = some f → hasPermission u f = true) →
      (∀ f ∈ s.files,
        (if s.selectedFileIds.contains sourceId then
            (s.selectedFileIds ++ [sourceId]).eraseDups
          else [sourceId]).contains f.id = true →
        f.parentId = some target) →
      handleMoveFile u now s sourceId target none = s) ∧
    (∀ (u : Option User) (now : Nat) (gen : Nat → String) (s : AppState)
        (target : String) (cb : ClipboardState),
      s.clipboard = some cb →
      (target == TRASH_ID) = false →
      strStartsWith target "tag:" = false →
      (∀ f, findById s.files target = some f → hasPermission u f = true) →
      (∀ i ∈ cb.ids, findById s.files i = none) →
      handlePaste u now gen s target = s) ∧
    (∀ (u : Option User) (now : Nat) (s : AppState) (ids : List String),
      (∀ f ∈ s.files, ids.contains f.id = false) →
      (handleMoveToTrash u now s ids).files = s.files ∧
      (handleMoveToTrash u now s ids).undoStack =
        { payload := HistoryPayload.TRASH ids
          description := "Move " ++ toString ids.length ++ " item(s) to Trash"
          timestamp := now } :: s.undoStack) ∧
    (∀ (now : Nat) (s : AppState) (ids : List String),
      (∀ f ∈ s.files, ids.contains f.id = false) →
      (handlePermanentDelete now s ids).files = s.files ∧
      (handlePermanentDelete now s ids).undoStack =
        { payload := HistoryPayload.DELETE []
          description := "Permanently delete 0 item(s)"
          timestamp := now } :: s.undoStack) := by
  refine ⟨?_, ?_, ?_, ?_, ?_⟩
  · intro u now s id newName file hfind htrash hperm hname
    simp only [handleRenameConfirm, hfind]
    rw [if_neg (by simp [htrash]), if_neg (by simp [hperm]),
      if_neg (by simp [hname])]
  · intro u now s sourceId target htr hsp htp hall
    simp only [handleMoveFile]
    by_cases hAD : (sourceId == target) = true
    · rw [if_pos hAD]
    · rw [if_neg hAD]
      have hspf : (match findById s.files sourceId with
          | some f => !(hasPermission u f)
          | none => false) = false := by
        rcases hfind : findById s.files sourceId with _ | f
        · rfl
        · simp [hsp f hfind]
      rw [if_neg (by rw [hspf]; simp), if_neg (by rw [htr]; simp)]
      have htpf : (if !(target == "root") then
          (match findById s.files target with
           | some f => !(hasPermission u f)
           | none => false)
        else false) = false := by
        by_cases hroot : (target == "root") = true
        · simp [hroot]
        · rw [if_pos (by simp [hroot])]
          rcases hfind : findById s.files target with _ | f
          · rfl
          · simp [htp f hfind]
      rw [if_neg (by rw [htpf]; simp)]
      by_cases hguard : moveCycleGuard s.files sourceId target = true
      · rw [if_pos hguard]
      · rw [if_neg hguard]
        rw [moveFold_noop target now _ s.files (maxOrderOf
          (s.files.filter (fun f => f.parentId == some target))) hall]
        rfl
  · intro u now gen s target cb hcb htr htag hperm hnone
    simp only [handlePaste, hcb]
    by_cases hids : cb.ids.isEmpty = true
    · rw [if_pos hids]
    · rw [if_neg hids, if_neg (by rw [htr]; simp), if_neg (by rw [htag]; simp)]
      have htpf : (if !(target == "root") then
          (match findById s.files target with
           | some f => !(hasPermission u f)
           | none => false)
        else false) = false := by
        by_cases hroot : (target == "root") = true
        · simp [hroot]
        · rw [if_pos (by simp [hroot])]
          rcases hfind : findById s.files target with _ | f
          · rfl
          · simp [hperm f hfind]
      rw [if_neg (by rw [htpf]; simp)]
      rw [pasteNewItems_empty s.files now gen target cb.ids hnone]
      rw [if_pos (by rfl)]
  · intro u now s ids hnone
    have hfilter : s.files.filter (fun f => ids.contains f.id) = [] := by
      rw [List.filter_eq_nil]
      intro f hf
      rw [hnone f hf]
      simp
    have hcond : ((s.files.filter (fun f => ids.contains f.id)).any
        (fun f => !(hasPermission u f))) = false := by
      rw [hfilter]
      rfl
    constructor
    · simp only [handleMoveToTrash]
      rw [if_neg (by rw [hcond]; simp)]
      show s.files.map _ = s.files
      apply map_eq_self_of_fix
      intro f hf
      rw [if_neg (by rw [hnone f hf]; simp)]
    · simp only [handleMoveToTrash]
      rw [if_neg (by rw [hcond]; simp)]
      rfl
  · intro now s ids hnone
    have hfilter : s.files.filter (fun f => ids.contains f.id) = [] := by
      rw [List.filter_eq_nil]
      intro f hf
      rw [hnone f hf]
      simp
    constructor
    · simp only [handlePermanentDelete]
      show (s.files.filter _) = s.files
      rw [List.filter_eq_self]
      intro f hf
      rw [hnone f hf]
      simp
    · simp only [handlePermanentDelete, hfilter]
      rfl

/-- Witness for C3: trashing a ghost id in the concrete fixture leaves
the collection unchanged yet pushes an action, and renaming `x.txt` to
its own name changes nothing. -/
theorem c3_amended_witness :
    ((∀ f ∈ ceHistState.files, (["ghost"] : List String).contains f.id = false) ∧
      (handleMoveToTrash (some adminUser) 7 ceHistState ["ghost"]).files =
        ceHistState.files ∧
      (handleMoveToTrash (some adminUser) 7 ceHistState ["ghost"]).undoStack =
        { payload := HistoryPayload.TRASH ["ghost"]
          description := "Move " ++ toString (["ghost"] : List String).length ++
            " item(s) to Trash"
          timestamp := 7 } :: ceHistState.undoStack) ∧
    handleRenameConfirm (some adminUser) 7 ceHistState "X" "x.txt" = ceHistState := by
  constructor
  · refine ⟨by decide, ?_⟩
    exact c3_amended.2.2.2.1 (some adminUser) 7 ceHistState ["ghost"] (by decide)
  · exact c3_amended.1 (some adminUser) 7 ceHistState "X" "x.txt"
      (sampleItem "X" (some "A") "x.txt" FileType.TEXT 1 (some { x := 5, y := 5 }))
      (by decide) (by decide) (by decide) (by decide)

theorem moveToTrash_stacks (u : Option User) (now : Nat) (s : AppState)
    (ids : List String) :
    ((handleMoveToTrash u now s ids).undoStack = s.undoStack ∧
      (handleMoveToTrash u now s ids).redoStack = s.redoStack) ∨
    (handleMoveToTrash u now s ids).redoStack = [] := by
  simp only [handleMoveToTrash, showPermissionError, showNotification, commitAction]
  split
  · left; exact ⟨rfl, rfl⟩
  · right; rfl

theorem applyCmd_stacks (c : Cmd) (s : AppState) :
    ((applyCmd c s).undoStack = s.undoStack ∧
      (applyCmd c s).redoStack = s.redoStack) ∨
    (applyCmd c s).redoStack = [] := by
  cases c with
  | rename u now id newName =>
    simp only [applyCmd, handleRenameConfirm, showPermissionError, showNotification,
      commitAction]
    repeat' split
    all_goals first | (left; exact ⟨rfl, rfl⟩) | (right; rfl)
  | move u now sourceId targetFolderId newPos =>
    simp only [applyCmd, handleMoveFile, showPermissionError, showNotification,
      commitAction]
    repeat' split
    all_goals first
      | (left; exact ⟨rfl, rfl⟩)
      | (right; rfl)
      | (exact moveToTrash_stacks u now s [sourceId])
  | reposition u now id pos =>
    simp only [applyCmd, handleReposition, showPermissionError, showNotification,
      commitAction]
    repeat' split
    all_goals first | (left; exact ⟨rfl, rfl⟩) | (right; rfl)
  | swap u now sourceId targetId =>
    simp only [applyCmd, handleSwapFile, showPermissionError, showNotification,
      commitAction]
    repeat' split
    all_goals first | (left; exact ⟨rfl, rfl⟩) | (right; rfl)
  | trash u now ids => exact moveToTrash_stacks u now s ids
  | restore now ids =>
    right; rfl
  | pdelete now ids =>
    right; rfl
  | newFolder u now targetParentId newId =>
    simp only [applyCmd, handleNewFolderAction, showPermissionError, showNotification,
      commitAction]
    repeat' split
    all_goals first | (left; exact ⟨rfl, rfl⟩) | (right; rfl)
  | paste u now gen targetFolderId =>
    simp only [applyCmd, handlePaste, showPermissionError, showNotification,
      commitAction]
    repeat' split
    all_goals first | (left; exact ⟨rfl, rfl⟩) | (right; rfl)

/-- C7: committing any mutation clears the redo stack entirely
(`commitAction` sets it to `[]`), so after an undo followed by any
command that actually commits (the undo stack changed), `performRedo` is
a complete no-op: it returns the state unchanged. -/
theorem c7_commit_clears_redo (s : AppState) (c : Cmd) (now1 now2 : Nat)
    (h : (applyCmd c (performUndo now1 s)).undoStack ≠ (performUndo now1 s).undoStack) :
    performRedo now2 (applyCmd c (performUndo now1 s)) =
      applyCmd c (performUndo now1 s) ∧
    (∀ (a : HistoryAction) (s2 : AppState), (commitAction a s2).redoStack = []) := by
  constructor
  · rcases applyCmd_stacks c (performUndo now1 s) with ⟨h1, _⟩ | h2
    · exact absurd h1 h
    · simp [performRedo, h2]
  · intro a s2
    rfl

/-- Witness for C7: undo the one recorded action, then permanently delete
an empty id set (which always commits); redo then changes nothing. -/
theorem c7_commit_clears_redo_witness :
    (applyCmd (Cmd.pdelete 3 []) (performUndo 1 ceUndoState)).undoStack ≠
      (performUndo 1 ceUndoState).undoStack ∧
    performRedo 4 (applyCmd (Cmd.pdelete 3 []) (performUndo 1 ceUndoState)) =
      applyCmd (Cmd.pdelete 3 []) (performUndo 1 ceUndoState) := by
  refine ⟨by decide, ?_⟩
  exact (c7_commit_clears_redo ceUndoState (Cmd.pdelete 3 []) 1 4 (by decide)).1

/-- C8 (amended): pasting or creating a folder into trash or a tag-view,
and uploading into trash, are rejected with no state change other than an
error notification; moving an item into itself or its own descendant is
also rejected with no state change, but silently — no notification is
emitted (and uploads into a tag-view are not rejected at all: the guard
only checks the trash id). -/
theorem c8_amended :
    (∀ (u : Option User) (now : Nat) (gen : Nat → String) (s : AppState)
        (cb : ClipboardState),
      s.clipboard = some cb → cb.ids.isEmpty = false →
      handlePaste u now gen s TRASH_ID =
        showNotification "Cannot paste into Trash" s) ∧
    (∀ (u : Option User) (now : Nat) (gen : Nat → String) (s : AppState)
        (cb : ClipboardState) (target : String),
      s.clipboard = some cb → cb.ids.isEmpty = false →
      strStartsWith target "tag:" = true →
      handlePaste u now gen s target =
        showNotification "Cannot paste into Tags view" s) ∧
    (∀ (u : Option User) (now : Nat) (s : AppState) (newId : String),
      handleNewFolderAction u now s TRASH_ID newId =
        showNotification "Cannot create folders in Trash" s) ∧
    (∀ (u : Option User) (now : Nat) (s : AppState) (target newId : String),
      strStartsWith target "tag:" = true →
      handleNewFolderAction u now s target newId =
        showNotification "Cannot create folders in Tag view" s) ∧
    (∀ (u : Option User) (now : Nat) (gen : Nat → String) (s : AppState)
        (uploads : List UploadFile),
      handleUpload u now gen s uploads TRASH_ID =
        showNotification "Cannot upload directly to Trash" s) ∧
    (∀ (u : Option User) (now : Nat) (s : AppState) (A D : String) (pos : Option Pos),
      (D = A ∨ (D ≠ TRASH_ID ∧ moveCycleGuard s.files A D = true)) →
      (∀ f, findById s.files A = some f → hasPermission u f = true) →
      (∀ f, findById s.files D = some f → hasPermission u f = true) →
      handleMoveFile u now s A D pos = s) := by
  refine ⟨?_, ?_, ?_, ?_, ?_, ?_⟩
  · intro u now gen s cb hcb hids
    simp only [handlePaste, hcb]
    rw [if_neg (by rw [hids]; simp), if_pos (by decide)]
  · intro u now gen s cb target hcb hids htag
    have htr : (target == TRASH_ID) = false := by
      by_cases h : target = TRASH_ID
      · subst h
        exact absurd htag (by decide)
      · simp [h]
    simp only [handlePaste, hcb]
    rw [if_neg (by rw [hids]; simp), if_neg (by rw [htr]; simp), if_pos htag]
  · intro u now s newId
    simp only [handleNewFolderAction]
    rw [if_pos (by decide)]
  · intro u now s target newId htag
    have htr : (target == TRASH_ID) = false := by
      by_cases h : target = TRASH_ID
      · subst h
        exact absurd htag (by decide)
      · simp [h]
    simp only [handleNewFolderAction]
    rw [if_neg (by rw [htr]; simp), if_pos htag]
  · intro u now gen s uploads
    simp only [handleUpload]
    rw [if_pos (by decide)]
  · intro u now s A D pos h hpa hpd
    simp only [handleMoveFile]
    by_cases hAD : (A == D) = true
    · rw [if_pos hAD]
    · rw [if_neg hAD]
      rcases h with h | ⟨hD, hguard⟩
      · exact absurd (by simp [h]) hAD
      · have hspf : (match findById s.files A with
            | some f => !(hasPermission u f)
            | none => false) = false := by
          rcases hfind : findById s.files A with _ | f
          · rfl
          · simp [hpa f hfind]
        rw [if_neg (by rw [hspf]; simp),
          if_neg (show ¬(D == TRASH_ID) = true by simpa using hD)]
        have htpf : (if !(D == "root") then
            (match findById s.files D with
             | some f => !(hasPermission u f)
             | none => false)
          else false) = false := by
          by_cases hroot : (D == "root") = true
          · simp [hroot]
          · rw [if_pos (by simp [hroot])]
            rcases hfind : findById s.files D with _ | f
            · rfl
            · simp [hpd f hfind]
        rw [if_neg (by rw [htpf]; simp), if_pos hguard]

/-- Witness for C8: pasting the concrete clipboard into the trash target
is rejected with exactly one notification and no other change. -/
theorem c8_amended_witness :
    cePasteState.clipboard = some { ids := ["r1"] } ∧
    handlePaste (some adminUser) 7 (fun n => "n" ++ toString n) cePasteState TRASH_ID =
      showNotification "Cannot paste into Trash" cePasteState := by
  refine ⟨rfl, ?_⟩
  exact c8_amended.1 (some adminUser) 7 (fun n => "n" ++ toString n) cePasteState
    { ids := ["r1"] } rfl (by decide)

theorem findById_filter_not_contains (ids : List String) (l : List FileSystemItem)
    (q : String) :
    findById (l.filter (fun f => !(ids.contains f.id))) q =
      if (!(ids.contains q)) = true then findById l q else none :=
  findById_filter (fun x => !(ids.contains x)) l q

theorem findById_filter_contains (ids : List String) (l : List FileSystemItem)
    (q : String) :
    findById (l.filter (fun f => ids.contains f.id)) q =
      if (ids.contains q) = true then findById l q else none :=
  findById_filter (fun x => ids.contains x) l q

theorem findById_filter_ne (cid : String) (l : List FileSystemItem) (q : String) :
    findById (l.filter (fun f => !(f.id == cid))) q =
      if (!(q == cid)) = true then findById l q else none :=
  findById_filter (fun x => !(x == cid)) l q

theorem contains_iff_mem {l : List String} {a : String} :
    l.contains a = true ↔ a ∈ l := by
  rw [List.contains_eq_any_beq, List.any_eq_true]
  constructor
  · rintro ⟨x, hx, he⟩
    have : a = x := by simpa using he
    rw [this]
    exact hx
  · intro h
    exact ⟨a, h, by simp⟩

theorem collEquiv_refl (F : List FileSystemItem) : collEquiv F F := fun _ => rfl

theorem actionok_reposition (s : List FileSystemItem) (id : String) (pos : Pos)
    (f0 : FileSystemItem) (hf : findById s id = some f0) :
    ActionOK (HistoryPayload.REPOSITION id f0.position pos) s
      (s.map (fun f => if f.id == id then { f with position := some pos } else f)) := by
  have hid1 : ∀ f : FileSystemItem,
      ((fun f => if f.id == id then { f with position := some pos } else f) f).id = f.id := by
    intro f
    by_cases h : (f.id == id) = true <;> simp [h]
  have hid2 : ∀ f : FileSystemItem,
      ((fun f => if f.id == id then { f with position := f0.position } else f) f).id = f.id := by
    intro f
    by_cases h : (f.id == id) = true <;> simp [h]
  constructor
  · intro now G hG q
    show findById (G.map (fun f =>
        if f.id == id then { f with position := f0.position } else f)) q = findById s q
    rw [findById_map _ hid2, hG q, findById_map _ hid1]
    rcases hs : findById s q with _ | g
    · rfl
    · have hgid : g.id = q := findById_eq_id hs
      by_cases hq : (g.id == id) = true
      · have hq2 : q = id := by
          have h1 : g.id = id := by simpa using hq
          rw [← hgid, h1]
        rw [hq2] at hs
        have hg0 : g = f0 := by
          rw [hs] at hf
          exact Option.some.inj hf
        subst hg0
        have hq3 : g.id = id := by simpa using hq
        simp [hq3]
        rw [← hq3]
      · have hq3 : ¬(g.id = id) := by simpa using hq
        simp [hq3]
  · intro now G hG q
    show findById (G.map (fun f =>
        if f.id == id then { f with position := some pos } else f)) q =
      findById (s.map (fun f =>
        if f.id == id then { f with position := some pos } else f)) q
    rw [findById_map _ hid1, findById_map _ hid1, hG q]

theorem actionok_swap (s : List FileSystemItem) (sid tid : String)
    (sf tf : FileSystemItem) (hsf : findById s sid = some sf)
    (htf : findById s tid = some tf) :
    ActionOK (HistoryPayload.SWAP sid tid sf.order tf.order tf.order sf.order) s
      (s.map (fun f => if f.id == sid then { f with order := tf.order }
        else if f.id == tid then { f with order := sf.order } else f)) := by
  have hid1 : ∀ f : FileSystemItem,
      ((fun f => if f.id == sid then { f with order := tf.order }
        else if f.id == tid then { f with order := sf.order } else f) f).id = f.id := by
    intro f
    by_cases h1 : (f.id == sid) = true
    · simp [h1]
    · by_cases h2 : (f.id == tid) = true <;> simp [h1, h2]
  have hsid : sf.id = sid := findById_eq_id hsf
  have htid : tf.id = tid := findById_eq_id htf
  constructor
  · intro now G hG q
    show findById (updateOrderFirst tid tf.order (updateOrderFirst sid sf.order G)) q =
      findById s q
    rw [findById_updateOrderFirst, findById_updateOrderFirst, hG q, findById_map _ hid1]
    by_cases hqt : (q == tid) = true
    · have hqt2 : q = tid := by simpa using hqt
      rw [if_pos hqt]
      by_cases hqs : (q == sid) = true
      · have hqs2 : q = sid := by simpa using hqs
        rw [if_pos hqs]
        have hst : sf = tf := by
          rw [hqs2] at hqt2
          rw [hqt2] at hsf
          rw [hsf] at htf
          exact Option.some.inj htf
        rw [hqt2, htf]
        have h1 : tf.id = sid := by rw [htid, ← hqt2, hqs2]
        simp [h1, ← hst]
      · rw [if_neg hqs, hqt2, htf]
        have htns : ¬(tid = sid) := by
          intro he
          rw [hqt2, he] at hqs
          simp at hqs
        simp [htid, htns]
        rw [← htid]
    · rw [if_neg hqt]
      by_cases hqs : (q == sid) = true
      · have hqs2 : q = sid := by simpa using hqs
        rw [if_pos hqs, hqs2, hsf]
        simp [hsid]
        rw [← hsid]
      · rw [if_neg hqs]
        rcases hs : findById s q with _ | g
        · rfl
        · have hgid : g.id = q := findById_eq_id hs
          have hgs : ¬(g.id = sid) := by rw [hgid]; simpa using hqs
          have hgt : ¬(g.id = tid) := by rw [hgid]; simpa using hqt
          simp [hgs, hgt]
  · intro now G hG q
    show findById (updateOrderFirst tid sf.order (updateOrderFirst sid tf.order G)) q =
      findById (s.map (fun f => if f.id == sid then { f with order := tf.order }
        else if f.id == tid then { f with order := sf.order } else f)) q
    rw [findById_updateOrderFirst, findById_updateOrderFirst, hG q, findById_map _ hid1]
    by_cases hqt : (q == tid) = true
    · have hqt2 : q = tid := by simpa using hqt
      rw [if_pos hqt]
      by_cases hqs : (q == sid) = true
      · have hqs2 : q = sid := by simpa using hqs
        rw [if_pos hqs]
        have hst : sf = tf := by
          rw [hqs2] at hqt2
          rw [hqt2] at hsf
          rw [hsf] at htf
          exact Option.some.inj htf
        rw [hqt2, htf]
        have h1 : tf.id = sid := by rw [htid, ← hqt2, hqs2]
        simp [h1, ← hst]
      · rw [if_neg hqs, hqt2, htf]
        have htns : ¬(tid = sid) := by
          intro he
          rw [hqt2, he] at hqs
          simp at hqs
        simp [htid, htns]
    · rw [if_neg hqt]
      by_cases hqs : (q == sid) = true
      · have hqs2 : q = sid := by simpa using hqs
        rw [if_pos hqs, hqs2, hsf]
        simp [hsid]
      · rw [if_neg hqs]
        rcases hs : findById s q with _ | g
        · rfl
        · have hgid : g.id = q := findById_eq_id hs
          have hgs : ¬(g.id = sid) := by rw [hgid]; simpa using hqs
          have hgt : ¬(g.id = tid) := by rw [hgid]; simpa using hqt
          simp [hgs, hgt]

theorem findById_ne_none_iff {l : List FileSystemItem} {q : String} :
    findById l q ≠ none ↔ ∃ f ∈ l, f.id = q := by
  constructor
  · intro h
    rcases hs : findById l q with _ | g
    · exact absurd hs h
    · exact ⟨g, List.mem_of_find?_eq_some hs, findById_eq_id hs⟩
  · rintro ⟨f, hf, hfq⟩ hnone
    exact (findById_eq_none_iff.mp hnone) f hf hfq

theorem snap_contains (s : List FileSystemItem) (ids : List String) (q : String) :
    (((s.filter (fun f => ids.contains f.id)).map (fun f => f.id)).contains q) = true ↔
      ids.contains q = true ∧ findById s q ≠ none := by
  rw [contains_iff_mem, List.mem_map]
  constructor
  · rintro ⟨f, hf, hfq⟩
    rcases List.mem_filter.mp hf with ⟨h1, h2⟩
    subst hfq
    have h2' : ids.contains f.id = true := by simpa using h2
    exact ⟨h2', findById_ne_none_iff.mpr ⟨f, h1, rfl⟩⟩
  · rintro ⟨h1, h2⟩
    obtain ⟨f, hf, hfq⟩ := findById_ne_none_iff.mp h2
    refine ⟨f, List.mem_filter.mpr ⟨hf, ?_⟩, hfq⟩
    rw [hfq]
    simpa using h1

theorem actionok_delete (s : List FileSystemItem) (ids : List String) :
    ActionOK (HistoryPayload.DELETE (s.filter (fun f => ids.contains f.id))) s
      (s.filter (fun f => !(ids.contains f.id))) := by
  constructor
  · intro now G hG q
    show findById (G ++ s.filter (fun f => ids.contains f.id)) q = findById s q
    by_cases hq : ids.contains q = true
    · have hGq : findById G q = none := by
        rw [hG q, findById_filter_not_contains, if_neg (by rw [hq]; simp)]
      rw [findById_append_right hGq, findById_filter_contains, if_pos hq]
    · have hq2 : ids.contains q = false := by simpa using hq
      rcases hs : findById s q with _ | g
      · have hGq : findById G q = none := by
          rw [hG q, findById_filter_not_contains, if_pos (by rw [hq2]; simp), hs]
        rw [findById_append_right hGq, findById_filter_contains, if_neg hq]
      · have hGq : findById G q = some g := by
          rw [hG q, findById_filter_not_contains, if_pos (by rw [hq2]; simp), hs]
        rw [findById_append_left hGq]
  · intro now G hG q
    show findById (G.filter (fun f =>
        !(((s.filter (fun f => ids.contains f.id)).map (fun f => f.id)).contains f.id))) q =
      findById (s.filter (fun f => !(ids.contains f.id))) q
    rw [findById_filter_not_contains, findById_filter_not_contains, hG q]
    by_cases hq : ids.contains q = true
    · rcases hs : findById s q with _ | g
      · have hsnap : (((s.filter (fun f => ids.contains f.id)).map
            (fun f => f.id)).contains q) = false := by
          rw [← Bool.not_eq_true]
          intro hc
          exact (snap_contains s ids q).mp hc |>.2 hs
        rw [if_pos (by rw [hsnap]; simp), if_neg (by rw [hq]; simp)]
      · have hsnap : (((s.filter (fun f => ids.contains f.id)).map
            (fun f => f.id)).contains q) = true := by
          exact (snap_contains s ids q).mpr ⟨hq, by rw [hs]; exact Option.some_ne_none g⟩
        rw [if_neg (by rw [hsnap]; simp), if_neg (by rw [hq]; simp)]
    · have hq2 : ids.contains q = false := by simpa using hq
      have hsnap : (((s.filter (fun f => ids.contains f.id)).map
          (fun f => f.id)).contains q) = false := by
        rw [← Bool.not_eq_true]
        intro hc
        rw [((snap_contains s ids q).mp hc).1] at hq2
        simp at hq2
      rw [if_pos (by rw [hsnap]; simp), if_pos (by rw [hq2]; simp)]

theorem actionok_create (s : List FileSystemItem) (item : FileSystemItem)
    (hfresh : findById s item.id = none) :
    ActionOK (HistoryPayload.CREATE item.id item) s (s ++ [item]) := by
  constructor
  · intro now G hG q
    show findById (G.filter (fun f => !(f.id == item.id))) q = findById s q
    rw [findById_filter_ne, hG q]
    by_cases hq : (q == item.id) = true
    · rw [if_neg (by rw [hq]; simp)]
      have hq2 : q = item.id := by simpa using hq
      rw [hq2, hfresh]
    · rw [if_pos (by rw [show (q == item.id) = false by simpa using hq]; simp)]
      rcases hs : findById s q with _ | g
      · rw [findById_append_right hs, findById_cons,
          if_neg (by
            intro hc
            have : item.id = q := by simpa using hc
            exact hq (by simp [this]))]
        rfl
      · rw [findById_append_left hs]
  · intro now G hG q
    show findById (G ++ [item]) q = findById (s ++ [item]) q
    rcases hs : findById s q with _ | g
    · rw [findById_append_right (by rw [hG q]; exact hs),
        findById_append_right hs]
    · rw [findById_append_left (show findById G q = some g by rw [hG q]; exact hs),
        findById_append_left hs]

theorem actionok_paste (s : List FileSystemItem) (newItems : List FileSystemItem)
    (hfresh : ∀ q, ((newItems.map (fun f => f.id)).contains q) = true →
      findById s q = none) :
    ActionOK (HistoryPayload.PASTE newItems) s (s ++ newItems) := by
  constructor
  · intro now G hG q
    show findById (G.filter (fun f =>
        !((newItems.map (fun f => f.id)).contains f.id))) q = findById s q
    rw [findById_filter_not_contains, hG q]
    by_cases hq : ((newItems.map (fun f => f.id)).contains q) = true
    · rw [if_neg (by rw [hq]; simp)]
      exact (hfresh q hq).symm
    · rw [if_pos (by rw [show ((newItems.map (fun f => f.id)).contains q) = false by
        simpa using hq]; simp)]
      rcases hs : findById s q with _ | g
      · rw [findById_append_right hs,
          findById_not_contains (show ((newItems.map (fun f => f.id)).contains q) = false by
            simpa using hq)]
      · rw [findById_append_left hs]
  · intro now G hG q
    show findById (G ++ newItems) q = findById (s ++ newItems) q
    rcases hs : findById s q with _ | g
    · rw [findById_append_right (by rw [hG q]; exact hs),
        findById_append_right hs]
    · rw [findById_append_left (show findById G q = some g by rw [hG q]; exact hs),
        findById_append_left hs]

theorem good_apply (c : Cmd) (s : AppState) (h : goodStep c s = true) :
    ∃ a : HistoryAction,
      (applyCmd c s).undoStack = a :: s.undoStack ∧
      (applyCmd c s).redoStack = [] ∧
      ActionOK a.payload s.files (applyCmd c s).files := by
  cases c with
  | rename u now id newName => simp [goodStep] at h
  | move u now sourceId targetFolderId newPos => simp [goodStep] at h
  | trash u now ids => simp [goodStep] at h
  | restore now ids => simp [goodStep] at h
  | reposition u now id pos =>
    rcases hf : findById s.files id with _ | f0
    · rw [goodStep, hf] at h
      exact absurd h (by simp)
    · have hperm : hasPermission u f0 = true := by
        rw [goodStep, hf] at h
        exact h
      have heq : applyCmd (Cmd.reposition u now id pos) s =
          commitAction
            { payload := HistoryPayload.REPOSITION id f0.position pos
              description := "Reposition"
              timestamp := now }
            { s with files := s.files.map (fun f =>
                if f.id == id then { f with position := some pos } else f) } := by
        simp only [applyCmd, handleReposition, hf]
        rw [if_neg (by rw [hperm]; simp)]
      refine ⟨{ payload := HistoryPayload.REPOSITION id f0.position pos
                description := "Reposition"
                timestamp := now }, ?_, ?_, ?_⟩
      · rw [heq]; rfl
      · rw [heq]; rfl
      · rw [heq]
        exact actionok_reposition s.files id pos f0 hf
  | swap u now sourceId targetId =>
    rcases hsf : findById s.files sourceId with _ | sf
    · rw [goodStep, hsf] at h
      exact absurd h (by simp)
    · rcases htf : findById s.files targetId with _ | tf
      · rw [goodStep, hsf, htf] at h
        exact absurd h (by simp)
      · have hperm : (hasPermission u sf && hasPermission u tf) = true := by
          rw [goodStep, hsf, htf] at h
          exact h
        rcases Bool.and_eq_true_iff.mp hperm with ⟨hp1, hp2⟩
        have heq : applyCmd (Cmd.swap u now sourceId targetId) s =
            commitAction
              { payload := HistoryPayload.SWAP sourceId targetId
                  sf.order tf.order tf.order sf.order
                description := "Reorder"
                timestamp := now }
              { s with files := s.files.map (fun f =>
                  if f.id == sourceId then { f with order := tf.order }
                  else if f.id == targetId then { f with order := sf.order }
                  else f) } := by
          simp only [applyCmd, handleSwapFile, hsf, htf]
          rw [if_neg (by rw [hp1, hp2]; simp)]
        refine ⟨{ payload := HistoryPayload.SWAP sourceId targetId
                    sf.order tf.order tf.order sf.order
                  description := "Reorder"
                  timestamp := now }, ?_, ?_, ?_⟩
        · rw [heq]; rfl
        · rw [heq]; rfl
        · rw [heq]
          exact actionok_swap s.files sourceId targetId sf tf hsf htf
  | pdelete now ids =>
    refine ⟨{ payload := HistoryPayload.DELETE
                (s.files.filter (fun f => ids.contains f.id))
              description := "Permanently delete " ++
                toString (s.files.filter (fun f => ids.contains f.id)).length ++ " item(s)"
              timestamp := now }, rfl, rfl, ?_⟩
    exact actionok_delete s.files ids
  | newFolder u now targetParentId newId =>
    rw [goodStep] at h
    rcases Bool.and_eq_true_iff.mp h with ⟨h123, hfresh⟩
    rcases Bool.and_eq_true_iff.mp h123 with ⟨h12, hperm⟩
    rcases Bool.and_eq_true_iff.mp h12 with ⟨htrash, htag⟩
    have hpermFail : (if !(targetParentId == "root") then
        (match findById s.files targetParentId with
         | some f => !(hasPermission u f)
         | none => false)
      else false) = false := by
      rcases Bool.or_eq_true_iff.mp hperm with hroot | hvis
      · simp [hroot]
      · by_cases hroot : (targetParentId == "root") = true
        · simp [hroot]
        · rw [if_pos (by rw [show (targetParentId == "root") = false by
            simpa using hroot]; simp)]
          rcases hfind : findById s.files targetParentId with _ | f
          · rfl
          · rw [hfind] at hvis
            have hvis2 : hasPermission u f = true := hvis
            simp [hvis2]
    have heq : applyCmd (Cmd.newFolder u now targetParentId newId) s =
        showNotification "Created folder"
          (commitAction
            { payload := HistoryPayload.CREATE newId
                { id := newId
                  parentId := some targetParentId
                  name := newFolderName
                    (((s.files.filter (fun f => f.parentId == some targetParentId)).map
                      (fun f => f.name)))
                  type := FileType.FOLDER
                  size := none
                  content := none
                  dateModified := now
                  dateCreated := some now
                  colorTag := none
                  tags := []
                  order := 1000
                  position := if targetParentId == "root" then
                      some { x := 200, y := 200 } else none
                  visibleTo := [UserRole.USER, UserRole.JUNIOR]
                  ownerId := currentUserId u
                  trashData := none }
              description := "New Folder"
              timestamp := now }
            { s with files := s.files ++
                [{ id := newId
                   parentId := some targetParentId
                   name := newFolderName
                     (((s.files.filter (fun f => f.parentId == some targetParentId)).map
                       (fun f => f.name)))
                   type := FileType.FOLDER
                   size := none
                   content := none
                   dateModified := now
                   dateCreated := some now
                   colorTag := none
                   tags := []
                   order := 1000
                   position := if targetParentId == "root" then
                       some { x := 200, y := 200 } else none
                   visibleTo := [UserRole.USER, UserRole.JUNIOR]
                   ownerId := currentUserId u
                   trashData := none }] }) := by
      simp only [applyCmd, handleNewFolderAction]
      rw [if_neg (by rw [show (targetParentId == TRASH_ID) = false by
          simpa using htrash]; simp),
        if_neg (by rw [show strStartsWith targetParentId "tag:" = false by
          simpa using htag]; simp),
        if_neg (by rw [hpermFail]; simp)]
    rw [heq]
    refine ⟨_, rfl, rfl, ?_⟩
    refine actionok_create s.files _ ?_
    show findById s.files newId = none
    exact findById_not_contains (by simpa using hfresh)
  | paste u now gen targetFolderId =>
    rw [goodStep] at h
    rcases hcb : s.clipboard with _ | cb
    · rw [hcb] at h
      simp at h
    · rw [hcb] at h
      rcases Bool.and_eq_true_iff.mp h with ⟨h1234, hlast⟩
      rcases Bool.and_eq_true_iff.mp h1234 with ⟨h123, hperm⟩
      rcases Bool.and_eq_true_iff.mp h123 with ⟨h12, htag⟩
      rcases Bool.and_eq_true_iff.mp h12 with ⟨hne, htrash⟩
      rcases Bool.and_eq_true_iff.mp hlast with ⟨hnonempty, hfresh⟩
      have hpermFail : (if !(targetFolderId == "root") then
          (match findById s.files targetFolderId with
           | some f => !(hasPermission u f)
           | none => false)
        else false) = false := by
        rcases Bool.or_eq_true_iff.mp hperm with hroot | hvis
        · simp [hroot]
        · by_cases hroot : (targetFolderId == "root") = true
          · simp [hroot]
          · rw [if_pos (by rw [show (targetFolderId == "root") = false by
              simpa using hroot]; simp)]
            rcases hfind : findById s.files targetFolderId with _ | f
            · rfl
            · rw [hfind] at hvis
              have hvis2 : hasPermission u f = true := hvis
              simp [hvis2]
      have heq : applyCmd (Cmd.paste u now gen targetFolderId) s =
          showNotification ("Pasted " ++ toString cb.ids.length ++ " item(s)")
            (commitAction
              { payload := HistoryPayload.PASTE
                  (pasteNewItems s.files now gen cb.ids targetFolderId)
                description := "Paste " ++ toString cb.ids.length ++ " item(s)"
                timestamp := now }
              { s with files := s.files ++
                  pasteNewItems s.files now gen cb.ids targetFolderId }) := by
        simp only [applyCmd, handlePaste, hcb]
        rw [if_neg (by rw [show cb.ids.isEmpty = false by simpa using hne]; simp),
          if_neg (by rw [show (targetFolderId == TRASH_ID) = false by
            simpa using htrash]; simp),
          if_neg (by rw [show strStartsWith targetFolderId "tag:" = false by
            simpa using htag]; simp),
          if_neg (by rw [hpermFail]; simp),
          if_neg (by rw [show (pasteNewItems s.files now gen cb.ids
            targetFolderId).isEmpty = false by simpa using hnonempty]; simp)]
      rw [heq]
      refine ⟨_, rfl, rfl, ?_⟩
      refine actionok_paste s.files _ ?_
      intro q hq
      obtain ⟨it, hit, hitq⟩ := List.mem_map.mp (contains_iff_mem.mp hq)
      have hthis := List.all_eq_true.mp hfresh it hit
      rw [hitq] at hthis
      exact findById_not_contains (by simpa using hthis)

theorem stackok_append (a : HistoryAction) :
    ∀ {l : List HistoryAction} {F0 F1 F2 : List FileSystemItem},
      StackOK l F1 F2 → ActionOK a.payload F0 F1 → StackOK (l ++ [a]) F0 F2 := by
  intro l F1 F2 F3 hstack
  induction hstack with
  | nil F =>
    intro hact
    exact StackOK.cons a [] F1 F1 F hact (StackOK.nil F1)
  | cons b l' F Fm Ft hb hl ih =>
    intro hact
    exact StackOK.cons b (l' ++ [a]) F1 Fm Ft hb (ih hact)

theorem chain_append :
    ∀ {l1 l2 : List HistoryAction} {F G H : List FileSystemItem},
      ChainOK l1 F G → ChainOK l2 G H → ChainOK (l1 ++ l2) F H := by
  intro l1 l2 F G H h1
  induction h1 with
  | nil F => intro h2; exact h2
  | cons a l F F1 F2 ha hl ih =>
    intro h2
    exact ChainOK.cons a (l ++ l2) F F1 H ha (ih h2)

theorem stack_to_chain :
    ∀ {l : List HistoryAction} {F G : List FileSystemItem},
      StackOK l F G → ChainOK l.reverse F G := by
  intro l F G h
  induction h with
  | nil F => exact ChainOK.nil F
  | cons a l F F1 F2 ha hl ih =>
    rw [List.reverse_cons]
    exact chain_append ih (ChainOK.cons a [] F1 F2 F2 ha (ChainOK.nil F2))

theorem undo_run :
    ∀ {acts : List HistoryAction} {Fbase Ftop : List FileSystemItem},
      StackOK acts Fbase Ftop →
      ∀ (ts : List Nat) (tail : List HistoryAction) (s : AppState),
        s.undoStack = acts ++ tail → collEquiv s.files Ftop →
        ts.length = acts.length →
        collEquiv (undoTimes ts s).files Fbase ∧
        (undoTimes ts s).undoStack = tail ∧
        (undoTimes ts s).redoStack = acts.reverse ++ s.redoStack := by
  intro acts Fbase Ftop hstack
  induction hstack with
  | nil F =>
    intro ts tail s hs hF hlen
    cases ts with
    | nil =>
      refine ⟨hF, ?_, rfl⟩
      simpa using hs
    | cons t ts' => simp at hlen
  | cons a l F F1 F2 ha hl ih =>
    intro ts tail s hs hF hlen
    cases ts with
    | nil => simp at hlen
    | cons t ts' =>
      have hs1u : (performUndo t s).undoStack = l ++ tail := by
        simp [performUndo, hs, showNotification]
      have hs1r : (performUndo t s).redoStack = a :: s.redoStack := by
        simp [performUndo, hs, showNotification]
      have hs1f : (performUndo t s).files = undoAction t a.payload s.files := by
        simp [performUndo, hs, showNotification]
      have hF1 : collEquiv (performUndo t s).files F1 := by
        rw [hs1f]
        exact ha.1 t s.files hF
      have hlen' : ts'.length = l.length := by simpa using hlen
      obtain ⟨hfiles, hustack, hrstack⟩ := ih ts' tail (performUndo t s) hs1u hF1 hlen'
      refine ⟨hfiles, hustack, ?_⟩
      rw [show undoTimes (t :: ts') s = undoTimes ts' (performUndo t s) from rfl] at *
      rw [hrstack, hs1r, List.reverse_cons, List.append_assoc]
      rfl

theorem redo_run :
    ∀ {acts : List HistoryAction} {Fbase Ftop : List FileSystemItem},
      ChainOK acts Fbase Ftop →
      ∀ (ts : List Nat) (tail : List HistoryAction) (s : AppState),
        s.redoStack = acts ++ tail → collEquiv s.files Fbase →
        ts.length = acts.length →
        collEquiv (redoTimes ts s).files Ftop ∧
        (redoTimes ts s).redoStack = tail ∧
        (redoTimes ts s).undoStack = acts.reverse ++ s.undoStack := by
  intro acts Fbase Ftop hchain
  induction hchain with
  | nil F =>
    intro ts tail s hs hF hlen
    cases ts with
    | nil =>
      refine ⟨hF, ?_, rfl⟩
      simpa using hs
    | cons t ts' => simp at hlen
  | cons a l F F1 F2 ha hl ih =>
    intro ts tail s hs hF hlen
    cases ts with
    | nil => simp at hlen
    | cons t ts' =>
      have hs1r : (performRedo t s).redoStack = l ++ tail := by
        simp [performRedo, hs, showNotification]
      have hs1u : (performRedo t s).undoStack = a :: s.undoStack := by
        simp [performRedo, hs, showNotification]
      have hs1f : (performRedo t s).files = redoAction t a.payload s.files := by
        simp [performRedo, hs, showNotification]
      have hF1 : collEquiv (performRedo t s).files F1 := by
        rw [hs1f]
        exact ha.2 t s.files hF
      have hlen' : ts'.length = l.length := by simpa using hlen
      obtain ⟨hfiles, hrstack, hustack⟩ := ih ts' tail (performRedo t s) hs1r hF1 hlen'
      refine ⟨hfiles, hrstack, ?_⟩
      rw [show redoTimes (t :: ts') s = redoTimes ts' (performRedo t s) from rfl] at *
      rw [hustack, hs1u, List.reverse_cons, List.append_assoc]
      rfl

theorem seq_invariant :
    ∀ (cs : List Cmd) (s : AppState), goodSeq s cs = true →
      ∃ acts : List HistoryAction,
        acts.length = cs.length ∧
        (applyCmds cs s).undoStack = acts ++ s.undoStack ∧
        StackOK acts s.files (applyCmds cs s).files ∧
        (cs = [] ∨ (applyCmds cs s).redoStack = []) := by
  intro cs
  induction cs with
  | nil =>
    intro s _
    exact ⟨[], rfl, rfl, StackOK.nil s.files, Or.inl rfl⟩
  | cons c cs' ih =>
    intro s h
    rw [goodSeq] at h
    rcases Bool.and_eq_true_iff.mp h with ⟨hstep, hseq⟩
    obtain ⟨a, hau, har, haok⟩ := good_apply c s hstep
    obtain ⟨acts', hlen, hundo, hstack, hredo⟩ := ih (applyCmd c s) hseq
    refine ⟨acts' ++ [a], ?_, ?_, ?_, ?_⟩
    · simp [hlen]
    · show (applyCmds cs' (applyCmd c s)).undoStack = (acts' ++ [a]) ++ s.undoStack
      rw [hundo, hau, List.append_assoc]
      rfl
    · exact stackok_append a hstack haok
    · right
      cases cs' with
      | nil => exact har
      | cons c2 cs2 =>
        rcases hredo with h0 | h0
        · exact absurd h0 (by simp)
        · exact h0

/-- C1 (amended): for every sequence of `reposition`, `swap-order`,
`permanent-delete`, `create-folder` and `paste` commands (the kinds whose
history payload is an exact inverse; with passing guards and fresh
generated ids), performing one undo per command restores the pre-sequence
collection and then one redo per command restores the post-sequence
collection — where a collection is recovered up to lookup-by-id: every
item addressed by its id is field-by-field equal (undoing a permanent
delete re-appends the deleted snapshots at the tail of the list, so the
list order itself may differ).  The original claim over all command kinds
is refuted by the counterexample: trash clears `position` and its undo
never restores it (rename and move likewise do not restore `dateModified`,
and the undo of restore loses the stored parent). -/
theorem c1_amended (s0 : AppState) (cs : List Cmd) (ts1 ts2 : List Nat)
    (hg : goodSeq s0 cs = true) (h1 : ts1.length = cs.length)
    (h2 : ts2.length = cs.length) :
    collEquiv (undoTimes ts1 (applyCmds cs s0)).files s0.files ∧
    collEquiv (redoTimes ts2 (undoTimes ts1 (applyCmds cs s0))).files
      (applyCmds cs s0).files := by
  obtain ⟨acts, hlen, hundo, hstack, hredo⟩ := seq_invariant cs s0 hg
  obtain ⟨hfiles, hustack, hrstack⟩ := undo_run hstack ts1 s0.undoStack
    (applyCmds cs s0) hundo (collEquiv_refl _) (by rw [h1, ← hlen])
  refine ⟨hfiles, ?_⟩
  rcases hredo with hnil | hempty
  · subst hnil
    have hts1 : ts1 = [] := List.length_eq_zero.mp h1
    have hts2 : ts2 = [] := List.length_eq_zero.mp h2
    subst hts1
    subst hts2
    exact collEquiv_refl _
  · have hchain := stack_to_chain hstack
    have hrstack2 : (undoTimes ts1 (applyCmds cs s0)).redoStack =
        acts.reverse ++ [] := by
      rw [hrstack, hempty]
    obtain ⟨hf2, _, _⟩ := redo_run hchain ts2 [] (undoTimes ts1 (applyCmds cs s0))
      hrstack2 hfiles (by rw [h2, ← hlen, List.length_reverse])
    exact hf2

/-- Witness for C1 at a concrete one-command sequence (a reposition of
`X` by the admin). -/
theorem c1_amended_witness :
    goodSeq ceHistState [Cmd.reposition (some adminUser) 3 "X" { x := 9, y := 9 }] =
      true ∧
    collEquiv (undoTimes [0] (applyCmds
        [Cmd.reposition (some adminUser) 3 "X" { x := 9, y := 9 }]
        ceHistState)).files ceHistState.files ∧
    collEquiv (redoTimes [1] (undoTimes [0] (applyCmds
        [Cmd.reposition (some adminUser) 3 "X" { x := 9, y := 9 }]
        ceHistState))).files
      (applyCmds [Cmd.reposition (some adminUser) 3 "X" { x := 9, y := 9 }]
        ceHistState).files := by
  refine ⟨by decide, ?_, ?_⟩
  · exact (c1_amended ceHistState
      [Cmd.reposition (some adminUser) 3 "X" { x := 9, y := 9 }]
      [0] [1] (by decide) rfl rfl).1
  · exact (c1_amended ceHistState
      [Cmd.reposition (some adminUser) 3 "X" { x := 9, y := 9 }]
      [0] [1] (by decide) rfl rfl).2

end FSApp
